import Mathlib

/-!
Verification development for the `ai-coding-cli` repository.

Shallow embedding of the core subsystems described in the specification:
the streaming `<think>` tag splitter (`src/think-parser.js`), the bounded
context-window builder (`src/history.js`), the command batch executor and
error classifier (`src/executor.js`), the markdown code-block extractor
(`src/parser.js`), and the agent turn controller (`src/chat.js`,
`processAITurn`).

JavaScript strings are modelled as `String` (or `List Char` where the code
works character by character), arrays as `List`, and the effectful
collaborators (inference client, command runner, user confirmation) as
explicit oracles passed to the embedded control flow.  Timestamps and
console output are I/O and are not modelled; no claim depends on them.
-/

set_option maxRecDepth 4096

/-! ## Stream tag splitter (`src/think-parser.js`) -/

/-- The open marker `<think>` (`OPEN_TAG` in the source). -/
def OPEN_TAG : List Char := "<think>".data

/-- The close marker `</think>` (`CLOSE_TAG` in the source). -/
def CLOSE_TAG : List Char := "</think>".data

/-- Parser states `STATE_NORMAL`, `STATE_TAG_BUFFER`, `STATE_THINKING`. -/
inductive TPState where
  | normal
  | tagBuffer
  | thinking
deriving DecidableEq, Repr

/-- The `ThinkParser` instance fields (`_state`, `_tagBuffer`, `_targetTag`,
`_thinkingText`, `_responseText`).  The two callbacks only mirror text to the
terminal; the accumulated texts are the observable output. -/
structure ThinkParser where
  state : TPState
  tagBuffer : List Char
  targetTag : List Char
  thinkingText : List Char
  responseText : List Char
deriving DecidableEq, Repr

/-- The constructor's initial state. -/
def ThinkParser.init : ThinkParser :=
  ⟨.normal, [], OPEN_TAG, [], []⟩

/-- Batch mode inside `push` (`'think' | 'response'`). -/
inductive EmitMode where
  | think
  | response
deriving DecidableEq, Repr

/-- Append a run of characters to the accumulated text of one mode. -/
def appendText (ps : ThinkParser) (m : EmitMode) (l : List Char) : ThinkParser :=
  match m with
  | .think => { ps with thinkingText := ps.thinkingText ++ l }
  | .response => { ps with responseText := ps.responseText ++ l }

/-- Local state of one `push` call: the parser plus the batching buffer
(`batchBuffer`, `batchMode`). -/
structure PushCtx where
  ps : ThinkParser
  batchBuffer : List Char
  batchMode : Option EmitMode
deriving DecidableEq, Repr

/-- `flushBatch` from `push`: emit the pending batch to the mode's output
(`batchMode === 'think'` goes to thinking, anything else to response). -/
def flushBatch (cx : PushCtx) : PushCtx :=
  if cx.batchBuffer = [] then cx
  else
    let ps :=
      match cx.batchMode with
      | some .think => { cx.ps with thinkingText := cx.ps.thinkingText ++ cx.batchBuffer }
      | _ => { cx.ps with responseText := cx.ps.responseText ++ cx.batchBuffer }
    ⟨ps, [], none⟩

/-- `emitChar` from `push`: flush on mode change, then buffer the character. -/
def emitChar (cx : PushCtx) (c : Char) (m : EmitMode) : PushCtx :=
  let cx' := if cx.batchMode ≠ none ∧ cx.batchMode ≠ some m then flushBatch cx else cx
  { cx' with batchMode := some m, batchBuffer := cx'.batchBuffer ++ [c] }

/-- One iteration of the character loop in `push`. -/
def stepChar (cx : PushCtx) (c : Char) : PushCtx :=
  match cx.ps.state with
  | .normal =>
      if c = '<' then
        let cx' := flushBatch cx
        { cx' with ps :=
            { cx'.ps with
                tagBuffer := ['<']
                targetTag := OPEN_TAG
                state := .tagBuffer } }
      else emitChar cx c .response
  | .thinking =>
      if c = '<' then
        let cx' := flushBatch cx
        { cx' with ps :=
            { cx'.ps with
                tagBuffer := ['<']
                targetTag := CLOSE_TAG
                state := .tagBuffer } }
      else emitChar cx c .think
  | .tagBuffer =>
      -- the source first appends `ch` to `_tagBuffer`, then tests the result
      let buf := cx.ps.tagBuffer ++ [c]
      if buf = cx.ps.targetTag then
        { cx with ps :=
            { cx.ps with
                state := if cx.ps.targetTag = OPEN_TAG then .thinking else .normal
                tagBuffer := [] } }
      else if buf <+: cx.ps.targetTag then
        { cx with ps := { cx.ps with tagBuffer := buf } }
      else
        -- divergence: flush the whole buffer to the previously active output
        let m := if cx.ps.targetTag = OPEN_TAG then EmitMode.response else EmitMode.think
        let cx' := buf.foldl (fun acc c2 => emitChar acc c2 m) cx
        { cx' with ps :=
            { cx'.ps with
                tagBuffer := []
                state := if cx'.ps.targetTag = OPEN_TAG then .normal else .thinking } }

/-- `ThinkParser.push(chunk)`: run the character loop with a fresh batch
buffer, then flush the final batch. -/
def pushChunk (ps : ThinkParser) (chunk : List Char) : ThinkParser :=
  (flushBatch (chunk.foldl stepChar ⟨ps, [], none⟩)).ps

/-- `ThinkParser.flush()`: emit an unterminated tag buffer (to thinking only
when buffering a close tag), then reset the state. -/
def flushStream (ps : ThinkParser) : ThinkParser :=
  let ps' :=
    if ps.tagBuffer ≠ [] then
      if ps.state = .tagBuffer ∧ ps.targetTag = CLOSE_TAG then
        { ps with thinkingText := ps.thinkingText ++ ps.tagBuffer, tagBuffer := [] }
      else
        { ps with responseText := ps.responseText ++ ps.tagBuffer, tagBuffer := [] }
    else ps
  if ps'.state = .tagBuffer then
    { ps' with state := if ps'.targetTag = CLOSE_TAG then .thinking else .normal }
  else ps'

/-- Batch-free version of one character step: characters are appended to the
accumulated texts immediately.  `push` is proved equal to folding this. -/
def stepCharD (ps : ThinkParser) (c : Char) : ThinkParser :=
  match ps.state with
  | .normal =>
      if c = '<' then
        { ps with tagBuffer := ['<'], targetTag := OPEN_TAG, state := .tagBuffer }
      else appendText ps .response [c]
  | .thinking =>
      if c = '<' then
        { ps with tagBuffer := ['<'], targetTag := CLOSE_TAG, state := .tagBuffer }
      else appendText ps .think [c]
  | .tagBuffer =>
      let buf := ps.tagBuffer ++ [c]
      if buf = ps.targetTag then
        { ps with
            state := if ps.targetTag = OPEN_TAG then .thinking else .normal
            tagBuffer := [] }
      else if buf <+: ps.targetTag then
        { ps with tagBuffer := buf }
      else
        let m := if ps.targetTag = OPEN_TAG then EmitMode.response else EmitMode.think
        { appendText ps m buf with
            tagBuffer := []
            state := if ps.targetTag = OPEN_TAG then .normal else .thinking }

/-- Resolve the batching context: the parser with the pending batch applied. -/
def flushCtx (cx : PushCtx) : ThinkParser :=
  (flushBatch cx).ps

/-- Batching invariant: a pending batch always has a mode. -/
def BatchInv (cx : PushCtx) : Prop :=
  cx.batchMode = none → cx.batchBuffer = []

/-! ## Shared string helpers (JavaScript semantics) -/

/-- JavaScript `String.prototype.includes`: substring containment. -/
def jsIncludes (s pat : String) : Prop :=
  pat.data <:+: s.data

instance (s pat : String) : Decidable (jsIncludes s pat) :=
  List.decidableInfix pat.data s.data

/-- JavaScript `String.prototype.toLowerCase`.  Every pattern the classifier
matches is ASCII, where this agrees with the JavaScript function. -/
def jsToLower (s : String) : String :=
  ⟨s.data.map Char.toLower⟩

/-- JavaScript `arr.slice(-k)`.  `slice(-0)` is `slice(0)`, the whole array;
for `k > 0` it is the last `min k arr.length` elements. -/
def jsSliceLast {α : Type} (l : List α) (k : Nat) : List α :=
  if k = 0 then l else l.drop (l.length - k)

/-- Split a character list at every newline, keeping empty segments. -/
def splitNlChars : List Char → List (List Char)
  | [] => [[]]
  | c :: rest =>
      match splitNlChars rest with
      | [] => [[]]
      | h :: t => if c = '\n' then [] :: h :: t else (c :: h) :: t

/-- JavaScript `s.split('\n')` (same segments as `String.splitOn "\n"`,
written by structural recursion). -/
def jsSplitNl (s : String) : List String :=
  (splitNlChars s.data).map (fun l => ⟨l⟩)

/-- JavaScript `parts.join('\n')` (same as `String.intercalate "\n"`). -/
def jsJoinNl (parts : List String) : String :=
  match parts with
  | [] => ""
  | p :: rest => rest.foldl (fun acc q => acc ++ "\n" ++ q) p

/-- JavaScript `String.prototype.trim` (strip whitespace at both ends). -/
def jsTrim (s : String) : String :=
  ⟨((s.data.dropWhile Char.isWhitespace).reverse.dropWhile Char.isWhitespace).reverse⟩

/-! ## Context window builder (`src/history.js`) -/

/-- `CONFIG.MAX_HISTORY_MESSAGES` from `src/config.js`. -/
def MAX_HISTORY_MESSAGES : Nat := 20

/-- A chat message as the window builder sees it: `processAITurn` maps the
stored conversation to `{role, content}` pairs before building the window.
The stored `timestamp` field is wall-clock I/O that no claim observes. -/
structure Msg where
  role : String
  content : String
deriving DecidableEq, Repr

/-- Placeholder for an out-of-range heap read (never reached on valid input). -/
def defaultMsg : Msg :=
  ⟨"", ""⟩

/-- Dereference an address in a heap of message objects. -/
def heapGet (h : List Msg) (a : Nat) : Msg :=
  h.getD a defaultMsg

/-- The tool-feedback marker `[WYNIKI WYKONANIA KOMEND]`. -/
def FEEDBACK_MARKER : String :=
  "[WYNIKI WYKONANIA KOMEND]"

/-- The original-task marker prefix. -/
def ORIGINAL_TASK_PREFIX : String :=
  "[ORYGINALNE ZADANIE] "

/-- `compressFeedbackMessage(content)` from `src/history.js`: keep the first
3 lines and the last 5, with one line counting the omitted middle. -/
def compressFeedbackMessage (content : String) : String :=
  if ¬ jsIncludes content FEEDBACK_MARKER then content
  else
    let lines := jsSplitNl content
    if lines.length ≤ 10 then content
    else
      let header := lines.take 3
      let tl := jsSliceLast lines 5
      let omitted := lines.length - header.length - tl.length
      jsJoinNl
        (header ++ ["... (skrócono " ++ toString omitted ++ " linii) ..."] ++ tl)

/-- The window loop body of `buildMessageWindow`: process the retained slice,
compressing stale command feedback.  `idx` is the absolute index of the
current message in the full history: message objects are distinct references,
so the source's `messages.indexOf(msg)` yields the message's own position. -/
def processSlice (histLen : Nat) : Nat → List Msg → List Msg
  | _, [] => []
  | idx, msg :: rest =>
      let isRecent := histLen - 4 ≤ idx
      (if msg.role = "user" ∧ ¬ isRecent ∧ jsIncludes msg.content FEEDBACK_MARKER then
        { msg with content := compressFeedbackMessage msg.content }
      else msg) :: processSlice histLen (idx + 1) rest

/-- `messages.findIndex(m => m.role === 'user')` (`none` for `-1`). -/
def firstUserIdx (messages : List Msg) : Option Nat :=
  messages.findIdx? (fun m => m.role = "user")

/-- The head of the built window: the system message plus, when the first
user message has slid out of the retained slice, the original-task copy. -/
def windowHead (messages : List Msg) (systemPrompt : String) (max : Nat) : List Msg :=
  match firstUserIdx messages with
  | none => [⟨"system", systemPrompt⟩]
  | some i =>
      if messages.length - max ≤ i then [⟨"system", systemPrompt⟩]
      else
        [⟨"system", systemPrompt⟩,
         ⟨"user", ORIGINAL_TASK_PREFIX ++ (messages.getD i defaultMsg).content⟩]

/-- `buildMessageWindow(messages, systemPrompt, maxN)` from `src/history.js`
(`maxN = none` is the omitted argument, defaulted from `CONFIG`). -/
def buildMessageWindow (messages : List Msg) (systemPrompt : String)
    (maxN : Option Nat) : List Msg :=
  let max := maxN.getD MAX_HISTORY_MESSAGES
  let recentWindow := jsSliceLast messages max
  windowHead messages systemPrompt max
    ++ processSlice messages.length (messages.length - recentWindow.length) recentWindow

/-! ## Code-block extraction (`src/parser.js`) -/

/-- One extracted fenced code block. -/
structure CodeBlock where
  language : String
  code : String
  startLine : Nat
  endLine : Nat
  incomplete : Bool := false
deriving DecidableEq, Repr

/-- The backtick character (U+0060). -/
def backtick : Char :=
  Char.ofNat 96

/-- JavaScript `\w`, i.e. `[A-Za-z0-9_]`. -/
def isWordChar (c : Char) : Bool :=
  c.isAlphanum || c = '_'

/-- Match one line against `FENCE_REGEX`, a fence of three or more equal
fence characters, a word-character language capture, then only whitespace.
No other token of the pattern can consume a fence character, so the greedy
run is the only possible match. -/
def matchFence (line : String) : Option (Char × Nat × String) :=
  match line.data with
  | [] => none
  | c :: _ =>
      if c = backtick ∨ c = '~' then
        let run := line.data.takeWhile (fun d => d = c)
        if 3 ≤ run.length then
          let rest := line.data.dropWhile (fun d => d = c)
          let lang := rest.takeWhile isWordChar
          let rest2 := rest.dropWhile isWordChar
          if rest2.all Char.isWhitespace then some (c, run.length, ⟨lang⟩)
          else none
        else none
      else none

/-- Loop state of `extractCodeBlocks`. -/
structure ExtractState where
  blocks : List CodeBlock
  inCode : Bool
  fenceChar : Char
  fenceLen : Nat
  lang : String
  currentLines : List String
  startLine : Nat
deriving Repr

/-- One iteration of the line loop of `extractCodeBlocks` (the first
component of the pair is the 0-based line index). -/
def extractStep (st : ExtractState) (iLine : Nat × String) : ExtractState :=
  let i := iLine.1
  let line := iLine.2
  match matchFence line with
  | some (fc, fl, lg) =>
      if st.inCode then
        if fc = st.fenceChar ∧ st.fenceLen ≤ fl ∧ lg = "" then
          { st with
              blocks := st.blocks
                ++ [⟨st.lang, jsJoinNl st.currentLines, st.startLine, i + 1, false⟩]
              inCode := false }
        else { st with currentLines := st.currentLines ++ [line] }
      else
        { st with
            inCode := true
            fenceChar := fc
            fenceLen := fl
            lang := if lg = "" then "plaintext" else lg
            currentLines := []
            startLine := i + 1 }
  | none =>
      if st.inCode then { st with currentLines := st.currentLines ++ [line] }
      else st

/-- `extractCodeBlocks(text)` from `src/parser.js`. -/
def extractCodeBlocks (text : String) : List CodeBlock :=
  if text = "" then []
  else
    let lines := jsSplitNl text
    let st := lines.enum.foldl extractStep ⟨[], false, backtick, 0, "", [], 0⟩
    if st.inCode ∧ st.currentLines ≠ [] then
      st.blocks
        ++ [⟨st.lang, jsJoinNl st.currentLines, st.startLine, lines.length, true⟩]
    else st.blocks

/-! ## Command execution and error classification (`src/executor.js`) -/

/-- Outcome of `executeCommand`: `{command, success, stdout, stderr, error,
skipped}`.  A user-skipped command is `{command, skipped: true}`; the string
`""` stands for the falsy `null`/missing fields. -/
structure CmdResult where
  command : String
  success : Bool := false
  stdout : String := ""
  stderr : String := ""
  error : String := ""
  skipped : Bool := false
deriving DecidableEq, Repr

/-- The diagnostic text `classifyError` matches on:
`` `${stderr || ''} ${error || ''}`.toLowerCase() ``. -/
def combinedDiag (stderr error : String) : String :=
  jsToLower (stderr ++ " " ++ error)

/-- First classifier rule: missing path phrases. -/
def pathRule (c : String) : Prop :=
  jsIncludes c "cannot find path" ∨ jsIncludes c "could not find" ∨
    jsIncludes c "does not exist" ∨ jsIncludes c "itemnotfoundexception" ∨
    jsIncludes c "no such file"

/-- Second classifier rule: unrecognized command phrases (the last disjunct
repeats the first, exactly as the source condition does). -/
def commandRule (c : String) : Prop :=
  jsIncludes c "is not recognized" ∨ jsIncludes c "commandnotfoundexception" ∨
    (jsIncludes c "the term" ∧ jsIncludes c "is not recognized")

/-- Third classifier rule: denied access phrases. -/
def permissionRule (c : String) : Prop :=
  (jsIncludes c "access" ∧ jsIncludes c "denied") ∨
    jsIncludes c "unauthorized" ∨ jsIncludes c "permissiondenied"

/-- Fourth classifier rule: parser error phrases. -/
def syntaxRule (c : String) : Prop :=
  jsIncludes c "syntax error" ∨ jsIncludes c "parsing" ∨
    jsIncludes c "unexpected token" ∨ jsIncludes c "missing closing" ∨
    jsIncludes c "missing expression" ∨ jsIncludes c "expressionparserexception"

/-- Fifth classifier rule: timeout phrases. -/
def timeoutRule (c : String) : Prop :=
  jsIncludes c "timeout" ∨ jsIncludes c "timed out"

/-- Sixth classifier rule: invalid parameter phrases. -/
def parameterRule (c : String) : Prop :=
  jsIncludes c "invalid parameter" ∨ jsIncludes c "cannot validate argument" ∨
    jsIncludes c "parameterargumentvalidation" ∨ jsIncludes c "a parameter cannot be found"

instance (c : String) : Decidable (pathRule c) := by
  unfold pathRule
  infer_instance

instance (c : String) : Decidable (commandRule c) := by
  unfold commandRule
  infer_instance

instance (c : String) : Decidable (permissionRule c) := by
  unfold permissionRule
  infer_instance

instance (c : String) : Decidable (syntaxRule c) := by
  unfold syntaxRule
  infer_instance

instance (c : String) : Decidable (timeoutRule c) := by
  unfold timeoutRule
  infer_instance

instance (c : String) : Decidable (parameterRule c) := by
  unfold parameterRule
  infer_instance

/-- Some rule of the fixed table matches the diagnostic text. -/
def anyRule (c : String) : Prop :=
  pathRule c ∨ commandRule c ∨ permissionRule c ∨ syntaxRule c ∨ timeoutRule c ∨
    parameterRule c

instance (c : String) : Decidable (anyRule c) := by
  unfold anyRule
  infer_instance

/-- An error classification `{type, hint}`. -/
structure ErrClass where
  type : String
  hint : String
deriving DecidableEq, Repr

/-- `classifyError(stderr, error, cmd)` from `src/executor.js`: the fixed
rule table evaluated top to bottom, first match wins.  The `cmd` argument is
unused by every rule, exactly as in the source. -/
def classifyError (stderr error cmd : String) : ErrClass :=
  let combined := combinedDiag stderr error
  if pathRule combined then
    ⟨"PATH_NOT_FOUND",
      "Ścieżka nie istnieje. Sprawdź: Get-Location i Test-Path przed ponowną próbą."⟩
  else if commandRule combined then
    ⟨"COMMAND_NOT_FOUND",
      "Komenda nie istnieje. Sprawdź pisownię lub zainstaluj brakujące narzędzie."⟩
  else if permissionRule combined then
    ⟨"PERMISSION_DENIED",
      "Brak uprawnień. Spróbuj uruchomić jako administrator lub zmień uprawnienia."⟩
  else if syntaxRule combined then
    ⟨"SYNTAX_ERROR",
      "Błąd składni. Sprawdź cudzysłowy, nawiasy i operatory w komendzie."⟩
  else if timeoutRule combined then
    ⟨"TIMEOUT",
      "Komenda przekroczyła limit czasu. Rozważ uproszczenie lub podział na mniejsze kroki."⟩
  else if parameterRule combined then
    ⟨"INVALID_PARAMETER",
      "Nieprawidłowy parametr. Sprawdź dokumentację: Get-Help <komenda>."⟩
  else
    ⟨"UNKNOWN",
      "Przeanalizuj komunikat błędu i kontekst, aby ustalić przyczynę."⟩

/-- `truncateOutput(text, maxLines)` from `src/executor.js`.  The head keeps
`Math.ceil(maxLines * 0.6)` lines; at the only call sites `maxLines` is the
default 50, where the JavaScript double product is exactly 30. -/
def truncateOutput (text : String) (maxLines : Nat := 50) : String :=
  if text = "" then ""
  else
    let lines := jsSplitNl text
    if lines.length ≤ maxLines then text
    else
      let headCount := (6 * maxLines + 9) / 10
      let tailCount := maxLines - headCount
      let omitted := lines.length - headCount - tailCount
      jsJoinNl
        (lines.take headCount
          ++ ["\n... (pominięto " ++ toString omitted ++ " linii) ...\n"]
          ++ jsSliceLast lines tailCount)

/-- Feedback rendering for one executed command (the loop body of
`formatResultsForFeedback`). -/
def renderResult (r : CmdResult) : String :=
  "\n--- Komenda: " ++ r.command ++ " ---\n"
    ++ (if r.success then
          "Status: SUKCES\n"
            ++ (if jsTrim r.stdout ≠ "" then "Wynik:\n" ++ truncateOutput (jsTrim r.stdout) ++ "\n"
                else "")
            ++ (if jsTrim r.stderr ≠ "" then
                  "Ostrzeżenia:\n" ++ truncateOutput (jsTrim r.stderr) ++ "\n"
                else "")
        else
          let tc := classifyError r.stderr r.error r.command
          "Status: BŁĄD\n" ++ "Typ błędu: " ++ tc.type ++ "\n"
            ++ (if jsTrim r.stderr ≠ "" then "stderr:\n" ++ truncateOutput (jsTrim r.stderr) ++ "\n"
                else "")
            ++ (if jsTrim r.stdout ≠ "" then "stdout:\n" ++ truncateOutput (jsTrim r.stdout) ++ "\n"
                else "")
            ++ (if r.error ≠ "" then "Komunikat: " ++ r.error ++ "\n" else "")
            ++ "\nDiagnostyka: " ++ tc.hint ++ "\n"
            ++ "WYMAGANE DZIAŁANIE: 1) Zbadaj kontekst (Get-Location, Test-Path, Get-ChildItem) 2) Napraw PRZYCZYNĘ, nie symptom 3) NIE powtarzaj tej samej komendy — zmień podejście\n")

/-- `formatResultsForFeedback(results)` from `src/executor.js`, with the
module-level `currentWorkingDir` passed explicitly.  `none` models the
source's `null` returns. -/
def formatResultsForFeedback (cwd : String) (results : List CmdResult) : Option String :=
  if results = [] then none
  else
    let executed := results.filter (fun r => !r.skipped)
    if executed = [] then none
    else
      let hasErrors := executed.any (fun r => !r.success)
      let banner :=
        if hasErrors then
          "\n⛔ STOP — BŁĄD W KOMENDZIE. PRZERWIJ AKTUALNY PLAN.\nSkoncentruj się WYŁĄCZNIE na naprawie tego błędu. NIE kontynuuj planu dopóki błąd nie zostanie naprawiony.\n"
        else ""
      some (banner ++ "\n" ++ FEEDBACK_MARKER ++ "\nKatalog roboczy: " ++ cwd ++ "\n"
        ++ String.join (executed.map renderResult))

/-- The block loop of `handlePowerShellCommands`: execute the PowerShell
blocks in order and stop at the first executed (non-skipped) failure.  `run`
abstracts `executeCommand` — interactive confirmation plus the subprocess —
and receives `results.length` at call time, so successive invocations are
distinguished. -/
def runPsBlocks (run : Nat → String → CmdResult) :
    List CodeBlock → List CmdResult → List CmdResult
  | [], results => results
  | b :: rest, results =>
      if jsTrim b.code ≠ "" then
        let result := run results.length (jsTrim b.code)
        let results' := results ++ [result]
        if ¬ result.skipped ∧ ¬ result.success then results'
        else runPsBlocks run rest results'
      else runPsBlocks run rest results

/-- `handlePowerShellCommands(response, autoExecute)` from `src/executor.js`,
with command execution abstracted by `run` (the `autoExecute` flag only
changes the confirmation flow inside `executeCommand`). -/
def handlePowerShellCommands (run : Nat → String → CmdResult) (response : String) :
    List CmdResult :=
  let blocks := extractCodeBlocks response
  let psBlocks := blocks.filter (fun b => b.language == "powershell" || b.language == "ps1")
  runPsBlocks run psBlocks []

/-- The nonempty trimmed commands of a block list, in order: exactly the
commands the loop of `handlePowerShellCommands` can reach. -/
def cmdsOfBlocks (blocks : List CodeBlock) : List String :=
  blocks.filterMap (fun b => if jsTrim b.code ≠ "" then some (jsTrim b.code) else none)

/-- The nonempty trimmed PowerShell commands of a reply, in order of
appearance. -/
def psCommands (response : String) : List String :=
  cmdsOfBlocks ((extractCodeBlocks response).filter
    (fun b => b.language == "powershell" || b.language == "ps1"))

/-- The results of executing the first `k` commands of `cs` through `run`,
starting at execution counter `off` (used to state what `runPsBlocks`
produces). -/
def execPrefix (run : Nat → String → CmdResult) (off : Nat) (cs : List String)
    (k : Nat) : List CmdResult :=
  (List.range k).map (fun i => run (off + i) (cs.getD i ""))

/-! ## Turn controller (`src/chat.js`, `processAITurn`) -/

/-- `MAX_AUTO_RETRY` from `src/chat.js`. -/
def MAX_AUTO_RETRY : Nat := 3

/-- Outcome of one `getAIResponse` call: a communication error, a user abort
(carrying the partial visible text, `""` for the falsy empty case), or a
completed reply (the accumulated visible text). -/
inductive AIOutcome where
  | commError
  | aborted (partialText : String)
  | completed (response : String)
deriving DecidableEq, Repr

/-- One round trip as the turn loop observes it: the reply outcome and the
results of the command batch run on that reply.  The request window built
from the current conversation, streaming, and command execution are I/O
against external collaborators, absorbed into the per-attempt oracle. -/
structure Round where
  ai : AIOutcome
  cmdResults : List CmdResult
deriving Repr

/-- Observables of one `processAITurn` call: the returned boolean, the final
conversation, the number of round trips performed, the number of automatic
repair attempts (feedback messages appended after a failing batch), and
whether the retry-limit notice was reported. -/
structure TurnResult where
  ok : Bool
  msgs : List Msg
  trips : Nat
  retries : Nat
  limitNotice : Bool
deriving DecidableEq, Repr

/-- The `for (attempt = 0; attempt <= MAX_AUTO_RETRY; attempt++)` loop of
`processAITurn`.  `env` yields each attempt's round-trip outcome and `cwd`
is the tracked working directory used in feedback rendering.  The context
rescan after file-modifying commands only alters the prompt of later
requests, which the oracle absorbs. -/
def turnLoop (env : Nat → Round) (cwd : String) (attempt : Nat) (msgs : List Msg) :
    TurnResult :=
  if h : MAX_AUTO_RETRY < attempt then
    -- the loop condition failed; `return true` after the loop
    ⟨true, msgs, 0, 0, false⟩
  else
    let r := env attempt
    match r.ai with
    | .commError =>
        -- roll back the trailing user message, abort with `false`
        let msgs' :=
          match msgs.getLast? with
          | some m => if m.role = "user" then msgs.dropLast else msgs
          | none => msgs
        ⟨false, msgs', 1, 0, false⟩
    | .aborted partialText =>
        -- keep the partial text with the interrupted suffix, end with `true`
        let msgs' :=
          if partialText ≠ "" then
            msgs ++ [⟨"assistant", partialText ++ "\n\n[przerwano przez użytkownika]"⟩]
          else msgs
        ⟨true, msgs', 1, 0, false⟩
    | .completed response =>
        if response = "" then
          -- `if (!response) continue`
          let rest := turnLoop env cwd (attempt + 1) msgs
          ⟨rest.ok, rest.msgs, rest.trips + 1, rest.retries, rest.limitNotice⟩
        else
          let msgs1 := msgs ++ [⟨"assistant", response⟩]
          let feedback := formatResultsForFeedback cwd r.cmdResults
          let hasErrors := r.cmdResults.any (fun c => !c.skipped && !c.success)
          if ¬ hasErrors then
            -- every executed command succeeded (or all were skipped): done
            ⟨true, msgs1, 1, 0, false⟩
          else if attempt < MAX_AUTO_RETRY then
            -- append diagnostic feedback and try a repair round trip
            let msgs2 := msgs1 ++ [⟨"user", feedback.getD ""⟩]
            let rest := turnLoop env cwd (attempt + 1) msgs2
            ⟨rest.ok, rest.msgs, rest.trips + 1, rest.retries + 1, rest.limitNotice⟩
          else
            -- retry ceiling reached: report and end with `true`
            ⟨true, msgs1, 1, 0, true⟩
termination_by MAX_AUTO_RETRY + 1 - attempt
decreasing_by
  all_goals
    simp only [MAX_AUTO_RETRY] at h ⊢
    omega

/-- `processAITurn(state)`, with the inference client and the command runner
abstracted by `env`. -/
def processAITurn (env : Nat → Round) (cwd : String) (msgs : List Msg) : TurnResult :=
  turnLoop env cwd 0 msgs

/-! ## Reference-level window builder (object identity) -/

/-- The slice loop of `buildMessageWindow` at the JavaScript object level:
the conversation lives in a heap of message objects (addresses are indices)
and the slice is a list of addresses.  A compressed entry is a fresh object
(`{...msg, content: ...}`) allocated at the end of the heap; an untouched
entry is pushed by reference.  `messages.indexOf(msg)` compares references,
so it is the first position of the address in the full history. -/
def processSliceRef (history : List Nat) :
    List Nat → List Msg → List Msg × List Nat
  | [], heap => (heap, [])
  | a :: rest, heap =>
      let msg := heapGet heap a
      let idx := history.indexOf a
      let isRecent := history.length - 4 ≤ idx
      if msg.role = "user" ∧ ¬ isRecent ∧ jsIncludes msg.content FEEDBACK_MARKER then
        let heap' := heap ++ [{ msg with content := compressFeedbackMessage msg.content }]
        let res := processSliceRef history rest heap'
        (res.1, heap.length :: res.2)
      else
        let res := processSliceRef history rest heap
        (res.1, a :: res.2)

/-- The head of `buildMessageWindow` at the JavaScript object level: the
first user message is located by dereferencing the history, the system
message is allocated fresh, and the original-task copy (when the first user
message aged out) is a fresh object whose content is read through the heap.
Returns the heap after these allocations and the window head as addresses. -/
def windowHeadRef (store : List Msg) (history : List Nat) (systemPrompt : String)
    (max : Nat) : List Msg × List Nat :=
  let fu := history.findIdx? (fun a => (heapGet store a).role = "user")
  let h1 := store ++ [⟨"system", systemPrompt⟩]
  let w1 := [store.length]
  match fu with
  | none => (h1, w1)
  | some i =>
      if history.length - max ≤ i then (h1, w1)
      else
        (h1 ++ [(⟨"user", ORIGINAL_TASK_PREFIX
            ++ (heapGet h1 (history.getD i 0)).content⟩ : Msg)],
         w1 ++ [h1.length])

/-- `buildMessageWindow` at the JavaScript object level.  Reads dereference
the heap; the system message, the original-task copy and the compressed
entries are fresh allocations; everything else is aliased.  Returns the
final heap and the window as a list of addresses. -/
def buildMessageWindowRef (store : List Msg) (history : List Nat)
    (systemPrompt : String) (maxN : Option Nat) : List Msg × List Nat :=
  let max := maxN.getD MAX_HISTORY_MESSAGES
  let next := windowHeadRef store history systemPrompt max
  let res := processSliceRef history (jsSliceLast history max) next.1
  (res.1, next.2 ++ res.2)

lemma batchInv_flushBatch (cx : PushCtx) : BatchInv (flushBatch cx) := by
  unfold BatchInv flushBatch
  split <;> simp_all

lemma batchInv_emitChar (cx : PushCtx) (c : Char) (m : EmitMode) :
    BatchInv (emitChar cx c m) := by
  unfold BatchInv emitChar
  split <;> simp

lemma flushCtx_emitChar (cx : PushCtx) (c : Char) (m : EmitMode) (h : BatchInv cx) :
    flushCtx (emitChar cx c m) = appendText (flushCtx cx) m [c] := by
  rcases cx with ⟨ps, buf, mode⟩
  unfold BatchInv at h
  unfold flushCtx emitChar flushBatch appendText
  rcases mode with _ | m0
  · simp at h
    subst h
    cases m <;> simp
  · by_cases hb : buf = []
    · subst hb
      cases m0 <;> cases m <;> simp
    · cases m0 <;> cases m <;> simp [hb]

lemma flushCtx_emitRun (l : List Char) (cx : PushCtx) (m : EmitMode) (h : BatchInv cx) :
    flushCtx (l.foldl (fun acc c2 => emitChar acc c2 m) cx)
      = appendText (flushCtx cx) m l := by
  induction l generalizing cx with
  | nil => cases m <;> simp [appendText]
  | cons c rest ih =>
      rw [List.foldl_cons, ih _ (batchInv_emitChar cx c m), flushCtx_emitChar cx c m h]
      cases m <;> simp [appendText]

lemma batchInv_emitRun (l : List Char) (cx : PushCtx) (m : EmitMode) (h : BatchInv cx) :
    BatchInv (l.foldl (fun acc c2 => emitChar acc c2 m) cx) := by
  induction l generalizing cx with
  | nil => exact h
  | cons c rest ih => exact ih _ (batchInv_emitChar cx c m)

lemma flushCtx_state (cx : PushCtx) : (flushCtx cx).state = cx.ps.state := by
  rcases cx with ⟨ps, buf, mode⟩
  unfold flushCtx flushBatch
  rcases mode with _ | m
  · split <;> simp
  · cases m <;> split <;> simp

lemma flushCtx_tagBuffer (cx : PushCtx) : (flushCtx cx).tagBuffer = cx.ps.tagBuffer := by
  rcases cx with ⟨ps, buf, mode⟩
  unfold flushCtx flushBatch
  rcases mode with _ | m
  · split <;> simp
  · cases m <;> split <;> simp

lemma flushCtx_targetTag (cx : PushCtx) : (flushCtx cx).targetTag = cx.ps.targetTag := by
  rcases cx with ⟨ps, buf, mode⟩
  unfold flushCtx flushBatch
  rcases mode with _ | m
  · split <;> simp
  · cases m <;> split <;> simp

lemma flushCtx_update (cx : PushCtx) (tb : List Char) (st : TPState) :
    flushCtx { cx with ps := { cx.ps with tagBuffer := tb, state := st } }
      = { flushCtx cx with tagBuffer := tb, state := st } := by
  rcases cx with ⟨ps, buf, mode⟩
  unfold flushCtx flushBatch
  rcases mode with _ | m
  · by_cases hb : buf = [] <;> simp [hb]
  · cases m <;> by_cases hb : buf = [] <;> simp [hb]

lemma flushCtx_flushBatch (cx : PushCtx) : flushCtx (flushBatch cx) = flushCtx cx := by
  rcases cx with ⟨ps, buf, mode⟩
  unfold flushCtx flushBatch
  rcases mode with _ | m
  · by_cases hb : buf = [] <;> simp [hb]
  · cases m <;> by_cases hb : buf = [] <;> simp [hb]

lemma flushBatch_batchBuffer (cx : PushCtx) : (flushBatch cx).batchBuffer = [] := by
  rcases cx with ⟨ps, buf, mode⟩
  unfold flushBatch
  split <;> simp_all


lemma emitChar_ps (cx : PushCtx) (c : Char) (m : EmitMode) :
    (emitChar cx c m).ps = (if cx.batchMode ≠ none ∧ cx.batchMode ≠ some m
      then (flushBatch cx).ps else cx.ps) := by
  unfold emitChar
  split <;> simp_all

lemma emitRun_targetTag (l : List Char) (cx : PushCtx) (m : EmitMode) :
    ((l.foldl (fun acc c2 => emitChar acc c2 m) cx)).ps.targetTag = cx.ps.targetTag := by
  induction l generalizing cx with
  | nil => rfl
  | cons a l2 ih =>
      rw [List.foldl_cons, ih (emitChar cx a m), emitChar_ps]
      split
      · exact flushCtx_targetTag cx
      · rfl

lemma flushCtx_stepChar (cx : PushCtx) (c : Char) (h : BatchInv cx) :
    flushCtx (stepChar cx c) = stepCharD (flushCtx cx) c := by
  have hst := flushCtx_state cx
  have htb := flushCtx_tagBuffer cx
  have htt := flushCtx_targetTag cx
  cases hs : cx.ps.state with
  | normal =>
      by_cases hc : c = '<'
      · subst hc
        have : stepChar cx '<' =
            { flushBatch cx with ps :=
                { (flushBatch cx).ps with
                    tagBuffer := ['<']
                    targetTag := OPEN_TAG
                    state := .tagBuffer } } := by
          unfold stepChar
          rw [hs]
          simp
        rw [this]
        unfold stepCharD
        rw [hst, hs]
        simp only [if_pos rfl]
        unfold flushCtx
        rw [flushBatch, flushBatch_batchBuffer]
        simp [flushCtx]
      · have : stepChar cx c = emitChar cx c .response := by
          unfold stepChar
          rw [hs]
          simp [hc]
        rw [this, flushCtx_emitChar cx c .response h]
        unfold stepCharD
        rw [hst, hs]
        simp [hc]
  | thinking =>
      by_cases hc : c = '<'
      · subst hc
        have : stepChar cx '<' =
            { flushBatch cx with ps :=
                { (flushBatch cx).ps with
                    tagBuffer := ['<']
                    targetTag := CLOSE_TAG
                    state := .tagBuffer } } := by
          unfold stepChar
          rw [hs]
          simp
        rw [this]
        unfold stepCharD
        rw [hst, hs]
        simp only [if_pos rfl]
        unfold flushCtx
        rw [flushBatch, flushBatch_batchBuffer]
        simp [flushCtx]
      · have : stepChar cx c = emitChar cx c .think := by
          unfold stepChar
          rw [hs]
          simp [hc]
        rw [this, flushCtx_emitChar cx c .think h]
        unfold stepCharD
        rw [hst, hs]
        simp [hc]
  | tagBuffer =>
      by_cases h1 : cx.ps.tagBuffer ++ [c] = cx.ps.targetTag
      · have : stepChar cx c =
            { cx with ps :=
                { cx.ps with
                    state := if cx.ps.targetTag = OPEN_TAG then .thinking else .normal
                    tagBuffer := [] } } := by
          unfold stepChar
          rw [hs]
          simp [h1]
        rw [this, flushCtx_update]
        unfold stepCharD
        rw [hst, hs, htb, htt]
        simp only [if_pos h1]
        rw [htt]
      · by_cases h2 : cx.ps.tagBuffer ++ [c] <+: cx.ps.targetTag
        · have : stepChar cx c =
              { cx with ps :=
                  { cx.ps with
                      state := TPState.tagBuffer
                      tagBuffer := cx.ps.tagBuffer ++ [c] } } := by
            unfold stepChar
            rw [hs]
            simp [h1, h2]
            exact hs
          rw [this, flushCtx_update]
          unfold stepCharD
          simp only [hst, hs, htb, htt, if_neg h1, if_pos h2]
        · have : stepChar cx c =
              (fun cx' => { cx' with ps :=
                  { cx'.ps with
                      tagBuffer := ([] : List Char)
                      state := if cx'.ps.targetTag = OPEN_TAG then TPState.normal
                               else TPState.thinking } })
                ((cx.ps.tagBuffer ++ [c]).foldl
                  (fun acc c2 => emitChar acc c2
                    (if cx.ps.targetTag = OPEN_TAG then EmitMode.response else EmitMode.think))
                  cx) := by
            unfold stepChar
            rw [hs]
            simp [h1, h2]
          rw [this]
          rw [flushCtx_update, emitRun_targetTag, flushCtx_emitRun _ _ _ h]
          unfold stepCharD
          rw [hst, hs, htb, htt]
          simp only [if_neg h1, if_neg h2]

lemma batchInv_stepChar (cx : PushCtx) (c : Char) (h : BatchInv cx) :
    BatchInv (stepChar cx c) := by
  unfold stepChar
  cases hs : cx.ps.state with
  | normal =>
      by_cases hc : c = '<'
      · simp only [if_pos hc]
        intro _
        exact flushBatch_batchBuffer cx
      · simp only [if_neg hc]
        exact batchInv_emitChar cx c _
  | thinking =>
      by_cases hc : c = '<'
      · simp only [if_pos hc]
        intro _
        exact flushBatch_batchBuffer cx
      · simp only [if_neg hc]
        exact batchInv_emitChar cx c _
  | tagBuffer =>
      by_cases h1 : cx.ps.tagBuffer ++ [c] = cx.ps.targetTag
      · simp only [if_pos h1]
        exact h
      · simp only [if_neg h1]
        by_cases h2 : cx.ps.tagBuffer ++ [c] <+: cx.ps.targetTag
        · simp only [if_pos h2]
          exact h
        · simp only [if_neg h2]
          exact batchInv_emitRun _ cx _ h

lemma flushCtx_foldSteps (l : List Char) (cx : PushCtx) (h : BatchInv cx) :
    flushCtx (l.foldl stepChar cx) = l.foldl stepCharD (flushCtx cx) := by
  induction l generalizing cx with
  | nil => rfl
  | cons a l2 ih =>
      rw [List.foldl_cons, List.foldl_cons, ih _ (batchInv_stepChar cx a h),
        flushCtx_stepChar cx a h]

lemma pushChunk_eq_fold (ps : ThinkParser) (chunk : List Char) :
    pushChunk ps chunk = chunk.foldl stepCharD ps := by
  have h0 : BatchInv ⟨ps, [], none⟩ := fun _ => rfl
  have hcx0 : flushCtx ⟨ps, [], none⟩ = ps := rfl
  have := flushCtx_foldSteps chunk ⟨ps, [], none⟩ h0
  rw [hcx0] at this
  exact this

lemma pushChunk_append (ps : ThinkParser) (a b : List Char) :
    pushChunk ps (a ++ b) = pushChunk (pushChunk ps a) b := by
  simp [pushChunk_eq_fold, List.foldl_append]

lemma foldl_pushChunk_join (chunks : List (List Char)) (ps : ThinkParser) :
    chunks.foldl pushChunk ps = pushChunk ps chunks.join := by
  induction chunks generalizing ps with
  | nil =>
      simp [pushChunk_eq_fold]
  | cons c cs ih =>
      rw [List.foldl_cons, ih, show (c :: cs).join = c ++ cs.join from rfl,
        pushChunk_append]

/-- C6: for an input containing a matched marker pair, splitting the stream
at arbitrary chunk boundaries and flushing yields the same accumulated
reasoning text and the same accumulated visible text as pushing it whole. -/
theorem splitter_chunk_invariance (chunks : List (List Char)) (a b c : List Char)
    (hpair : chunks.join = a ++ OPEN_TAG ++ b ++ CLOSE_TAG ++ c) :
    (flushStream (chunks.foldl pushChunk ThinkParser.init)).thinkingText
        = (flushStream (pushChunk ThinkParser.init chunks.join)).thinkingText
      ∧ (flushStream (chunks.foldl pushChunk ThinkParser.init)).responseText
        = (flushStream (pushChunk ThinkParser.init chunks.join)).responseText := by
  rw [foldl_pushChunk_join]
  exact ⟨rfl, rfl⟩

/-- Witness for C6 at the stream `"<t" ++ "hink>ab</think>" ++ "cd"`. -/
theorem splitter_chunk_invariance_witness :
    (flushStream (["<t".data, "hink>ab</think>".data, "cd".data].foldl pushChunk
        ThinkParser.init)).thinkingText
      = (flushStream (pushChunk ThinkParser.init
          ["<t".data, "hink>ab</think>".data, "cd".data].join)).thinkingText :=
  (splitter_chunk_invariance ["<t".data, "hink>ab</think>".data, "cd".data]
    [] "ab".data "cd".data (by decide)).1

/-- C3 counterexample: after a divergence the buffered characters are *not*
re-scanned — for the input `"<<think>abc"` followed by `flush()` the whole
input is visible text and the reasoning text is empty, not `"abc"`. -/
theorem splitter_no_rescan_cex :
    (flushStream (pushChunk ThinkParser.init "<<think>abc".data)).thinkingText = []
      ∧ (flushStream (pushChunk ThinkParser.init "<<think>abc".data)).responseText
          = "<<think>abc".data := by
  decide

/-- C3 amended: whenever the accumulated buffer diverges from the target
marker, the buffered characters *including the diverging character* are
flushed to whichever output was active before buffering began, and scanning
resumes with the next input character in that pre-buffering state (the
diverging character is not re-scanned); consequently for `"<<think>abc"`
followed by `flush()` the whole input is visible text and the reasoning
text is empty. -/
theorem splitter_divergence_flush :
    (∀ (ps : ThinkParser) (c : Char), ps.state = TPState.tagBuffer →
        ¬ (ps.tagBuffer ++ [c] <+: ps.targetTag) →
        stepCharD ps c =
          { appendText ps
              (if ps.targetTag = OPEN_TAG then EmitMode.response else EmitMode.think)
              (ps.tagBuffer ++ [c]) with
              tagBuffer := []
              state := if ps.targetTag = OPEN_TAG then TPState.normal
                       else TPState.thinking })
      ∧ (flushStream (pushChunk ThinkParser.init "<<think>abc".data)).responseText
          = "<<think>abc".data
      ∧ (flushStream (pushChunk ThinkParser.init "<<think>abc".data)).thinkingText
          = [] := by
  refine ⟨?_, by decide, by decide⟩
  intro ps c hs hp
  have h1 : ps.tagBuffer ++ [c] ≠ ps.targetTag := by
    intro he
    exact hp (he ▸ List.prefix_refl _)
  unfold stepCharD
  rw [hs]
  simp only [if_neg h1, if_neg hp]

/-- Witness for the divergence rule of C3 at a concrete buffering state. -/
theorem splitter_divergence_flush_witness :
    stepCharD ⟨TPState.tagBuffer, ['<'], OPEN_TAG, [], []⟩ '<'
      = { appendText ⟨TPState.tagBuffer, ['<'], OPEN_TAG, [], []⟩
            (if (⟨TPState.tagBuffer, ['<'], OPEN_TAG, [], []⟩ : ThinkParser).targetTag
                = OPEN_TAG
             then EmitMode.response else EmitMode.think)
            ((⟨TPState.tagBuffer, ['<'], OPEN_TAG, [], []⟩ : ThinkParser).tagBuffer
              ++ ['<']) with
            tagBuffer := []
            state := if (⟨TPState.tagBuffer, ['<'], OPEN_TAG, [], []⟩ :
                ThinkParser).targetTag = OPEN_TAG
              then TPState.normal else TPState.thinking } :=
  splitter_divergence_flush.1 ⟨TPState.tagBuffer, ['<'], OPEN_TAG, [], []⟩ '<'
    rfl (by decide)

/-- C9 counterexample: matching is first-match-wins, so a diagnostic text
containing `"is not recognized"` together with a rule-1 phrase is classified
as `PATH_NOT_FOUND`, not `COMMAND_NOT_FOUND` as the claim states for every
text containing `"is not recognized"`. -/
theorem classifier_order_cex :
    jsIncludes (combinedDiag "could not find x! is not recognized" "")
        "is not recognized"
      ∧ (classifyError "could not find x! is not recognized" "" "fakecmd").type
          = "PATH_NOT_FOUND"
      ∧ (classifyError "could not find x! is not recognized" "" "fakecmd").type
          ≠ "COMMAND_NOT_FOUND" := by
  refine ⟨by decide, ?_, by decide⟩
  decide

/-- C9 amended: the rule table is evaluated top to bottom with first match
winning; any diagnostic text containing `"cannot find path"` is classified
path-not-found (that rule is first); any containing `"is not recognized"`
*on which the earlier path rule does not fire* is classified
command-not-found; and text matching no rule is classified unknown with a
non-empty remediation hint. -/
theorem classifier_rules :
    (∀ stderr error cmd, jsIncludes (combinedDiag stderr error) "cannot find path" →
        (classifyError stderr error cmd).type = "PATH_NOT_FOUND")
      ∧ (∀ stderr error cmd, jsIncludes (combinedDiag stderr error) "is not recognized" →
          ¬ pathRule (combinedDiag stderr error) →
          (classifyError stderr error cmd).type = "COMMAND_NOT_FOUND")
      ∧ (∀ stderr error cmd, ¬ anyRule (combinedDiag stderr error) →
          (classifyError stderr error cmd).type = "UNKNOWN"
            ∧ (classifyError stderr error cmd).hint ≠ "") := by
  refine ⟨?_, ?_, ?_⟩
  · intro stderr error cmd h
    have hp : pathRule (combinedDiag stderr error) := Or.inl h
    unfold classifyError
    simp [hp]
  · intro stderr error cmd h hp
    have hc : commandRule (combinedDiag stderr error) := Or.inl h
    unfold classifyError
    simp [hp, hc]
  · intro stderr error cmd h
    have h1 : ¬ pathRule (combinedDiag stderr error) := fun x => h (Or.inl x)
    have h2 : ¬ commandRule (combinedDiag stderr error) := fun x => h (Or.inr (Or.inl x))
    have h3 : ¬ permissionRule (combinedDiag stderr error) := fun x =>
      h (Or.inr (Or.inr (Or.inl x)))
    have h4 : ¬ syntaxRule (combinedDiag stderr error) := fun x =>
      h (Or.inr (Or.inr (Or.inr (Or.inl x))))
    have h5 : ¬ timeoutRule (combinedDiag stderr error) := fun x =>
      h (Or.inr (Or.inr (Or.inr (Or.inr (Or.inl x)))))
    have h6 : ¬ parameterRule (combinedDiag stderr error) := fun x =>
      h (Or.inr (Or.inr (Or.inr (Or.inr (Or.inr x)))))
    unfold classifyError
    simp [h1, h2, h3, h4, h5, h6]

/-- Witness for C9 at the spec's own example inputs plus an unmatched text. -/
theorem classifier_rules_witness :
    (classifyError "cannot find path missing.txt" "" "Get-Content missing.txt").type
        = "PATH_NOT_FOUND"
      ∧ (classifyError "is not recognized" "" "fakecmd").type = "COMMAND_NOT_FOUND"
      ∧ (classifyError "zonk" "" "x").type = "UNKNOWN"
      ∧ (classifyError "zonk" "" "x").hint ≠ "" :=
  ⟨classifier_rules.1 _ _ _ (by decide),
   classifier_rules.2.1 _ _ _ (by decide) (by decide),
   (classifier_rules.2.2 _ _ _ (by decide)).1,
   (classifier_rules.2.2 _ _ _ (by decide)).2⟩

lemma execPrefix_succ_cons (run : Nat → String → CmdResult) (off : Nat) (t : String)
    (cs : List String) (k : Nat) :
    execPrefix run off (t :: cs) (k + 1) = run off t :: execPrefix run (off + 1) cs k := by
  unfold execPrefix
  rw [List.range_succ_eq_map, List.map_cons, List.map_map]
  simp only [Nat.add_zero, List.getD_cons_zero]
  refine congrArg _ (List.map_congr_left ?_)
  intro i _
  simp only [Function.comp_apply, List.getD_cons_succ]
  congr 1
  omega

lemma runPsBlocks_cons_skip (run : Nat → String → CmdResult) (b : CodeBlock)
    (rest : List CodeBlock) (acc : List CmdResult) (hb : jsTrim b.code = "") :
    runPsBlocks run (b :: rest) acc = runPsBlocks run rest acc := by
  rw [runPsBlocks]
  simp [hb]

lemma runPsBlocks_cons_halt (run : Nat → String → CmdResult) (b : CodeBlock)
    (rest : List CodeBlock) (acc : List CmdResult) (hb : jsTrim b.code ≠ "")
    (hsk : (run acc.length (jsTrim b.code)).skipped = false)
    (hsu : (run acc.length (jsTrim b.code)).success = false) :
    runPsBlocks run (b :: rest) acc = acc ++ [run acc.length (jsTrim b.code)] := by
  rw [runPsBlocks]
  simp [hb, hsk, hsu]

lemma runPsBlocks_cons_pass (run : Nat → String → CmdResult) (b : CodeBlock)
    (rest : List CodeBlock) (acc : List CmdResult) (hb : jsTrim b.code ≠ "")
    (hpass : (run acc.length (jsTrim b.code)).skipped = true
      ∨ (run acc.length (jsTrim b.code)).success = true) :
    runPsBlocks run (b :: rest) acc
      = runPsBlocks run rest (acc ++ [run acc.length (jsTrim b.code)]) := by
  rw [runPsBlocks]
  rcases hpass with h | h <;> simp [hb, h]

lemma runPsBlocks_spec (run : Nat → String → CmdResult) (blocks : List CodeBlock)
    (acc : List CmdResult) :
    ∃ k, k ≤ (cmdsOfBlocks blocks).length
      ∧ runPsBlocks run blocks acc
          = acc ++ execPrefix run acc.length (cmdsOfBlocks blocks) k
      ∧ (∀ i, i + 1 < k →
          (run (acc.length + i) ((cmdsOfBlocks blocks).getD i "")).skipped = true
            ∨ (run (acc.length + i) ((cmdsOfBlocks blocks).getD i "")).success = true)
      ∧ (k < (cmdsOfBlocks blocks).length →
          0 < k
            ∧ (run (acc.length + (k - 1)) ((cmdsOfBlocks blocks).getD (k - 1) "")).skipped
                = false
            ∧ (run (acc.length + (k - 1)) ((cmdsOfBlocks blocks).getD (k - 1) "")).success
                = false) := by
  induction blocks generalizing acc with
  | nil =>
      refine ⟨0, by simp [cmdsOfBlocks], ?_, ?_, ?_⟩
      · simp [runPsBlocks, execPrefix]
      · intro i hi
        omega
      · intro hlt
        simp [cmdsOfBlocks] at hlt
  | cons b rest ih =>
      by_cases hb : jsTrim b.code = ""
      · have hcmds : cmdsOfBlocks (b :: rest) = cmdsOfBlocks rest := by
          simp [cmdsOfBlocks, hb]
        rw [hcmds, runPsBlocks_cons_skip run b rest acc hb]
        exact ih acc
      · have hcmds : cmdsOfBlocks (b :: rest) = jsTrim b.code :: cmdsOfBlocks rest := by
          simp [cmdsOfBlocks, hb]
        by_cases hhalt : (run acc.length (jsTrim b.code)).skipped = false
            ∧ (run acc.length (jsTrim b.code)).success = false
        · refine ⟨1, ?_, ?_, ?_, ?_⟩
          · rw [hcmds]
            simp
          · rw [runPsBlocks_cons_halt run b rest acc hb hhalt.1 hhalt.2, hcmds,
              execPrefix_succ_cons]
            simp [execPrefix]
          · intro i hi
            omega
          · intro _
            rw [hcmds]
            refine ⟨Nat.one_pos, ?_, ?_⟩
            · simpa using hhalt.1
            · simpa using hhalt.2
        · have hpass : (run acc.length (jsTrim b.code)).skipped = true
              ∨ (run acc.length (jsTrim b.code)).success = true := by
            cases hsk : (run acc.length (jsTrim b.code)).skipped <;>
              cases hsu : (run acc.length (jsTrim b.code)).success <;> simp_all
          obtain ⟨k', hk'le, hk'run, hk'pass, hk'halt⟩ :=
            ih (acc ++ [run acc.length (jsTrim b.code)])
          have hlen : (acc ++ [run acc.length (jsTrim b.code)]).length = acc.length + 1 := by
            simp
          refine ⟨k' + 1, ?_, ?_, ?_, ?_⟩
          · rw [hcmds]
            simpa using Nat.succ_le_succ hk'le
          · rw [runPsBlocks_cons_pass run b rest acc hb hpass, hk'run, hcmds,
              execPrefix_succ_cons, hlen]
            simp
          · intro i hi
            rw [hcmds]
            cases i with
            | zero =>
                simpa using hpass
            | succ j =>
                have hj := hk'pass j (by omega)
                rw [hlen] at hj
                have harith : acc.length + 1 + j = acc.length + (j + 1) := by omega
                rw [harith] at hj
                simpa [List.getD_cons_succ] using hj
          · intro hlt
            rw [hcmds] at hlt
            simp only [List.length_cons] at hlt
            have hlt' : k' < (cmdsOfBlocks rest).length := by omega
            obtain ⟨hk0, hsk, hsu⟩ := hk'halt hlt'
            rw [hlen] at hsk hsu
            obtain ⟨j, rfl⟩ : ∃ j, k' = j + 1 := ⟨k' - 1, by omega⟩
            have harith : acc.length + 1 + (j + 1 - 1) = acc.length + (j + 1) := by omega
            rw [harith] at hsk hsu
            refine ⟨by omega, ?_, ?_⟩ <;>
              · rw [hcmds]
                simp only [Nat.add_sub_cancel, List.getD_cons_succ]
                assumption

lemma execPrefix_length (run : Nat → String → CmdResult) (off : Nat) (cs : List String)
    (k : Nat) : (execPrefix run off cs k).length = k := by
  simp [execPrefix]

lemma execPrefix_getD (run : Nat → String → CmdResult) (off : Nat) (cs : List String)
    (k i : Nat) (hi : i < k) (d : CmdResult) :
    (execPrefix run off cs k).getD i d = run (off + i) (cs.getD i "") := by
  unfold execPrefix
  rw [List.getD_eq_getElem?_getD, List.getElem?_map, List.getElem?_range hi]
  rfl

/-- C5: within one batch, the extracted commands execute strictly in the
order they appeared in the reply (the `i`-th stored result is the `i`-th
command, run as the `i`-th execution); once an executed (non-skipped)
command fails, it is the last entry — no later command of the batch is ever
attempted; and if no executed command failed (every result was skipped or
successful), every command of the batch was processed. -/
theorem batch_order_and_halt (run : Nat → String → CmdResult) (response : String) :
    (handlePowerShellCommands run response).length ≤ (psCommands response).length
      ∧ (∀ i, i < (handlePowerShellCommands run response).length →
          (handlePowerShellCommands run response).getD i ⟨"", false, "", "", "", false⟩
            = run i ((psCommands response).getD i ""))
      ∧ (∀ i, i < (handlePowerShellCommands run response).length →
          ((handlePowerShellCommands run response).getD i
              ⟨"", false, "", "", "", false⟩).skipped = false →
          ((handlePowerShellCommands run response).getD i
              ⟨"", false, "", "", "", false⟩).success = false →
          (handlePowerShellCommands run response).length = i + 1)
      ∧ ((∀ r ∈ handlePowerShellCommands run response,
            r.skipped = true ∨ r.success = true) →
          (handlePowerShellCommands run response).length = (psCommands response).length) := by
  obtain ⟨k, hkle, hkrun, hkpass, hkhalt⟩ := runPsBlocks_spec run
    ((extractCodeBlocks response).filter
      (fun b => b.language == "powershell" || b.language == "ps1")) []
  have hps : handlePowerShellCommands run response
      = execPrefix run 0 (psCommands response) k := by
    unfold handlePowerShellCommands psCommands
    simpa using hkrun
  have hlen : (handlePowerShellCommands run response).length = k := by
    rw [hps, execPrefix_length]
  have hcs : psCommands response
      = cmdsOfBlocks ((extractCodeBlocks response).filter
          (fun b => b.language == "powershell" || b.language == "ps1")) := rfl
  refine ⟨?_, ?_, ?_, ?_⟩
  · rw [hlen, hcs]
    exact hkle
  · intro i hi
    rw [hlen] at hi
    rw [hps, execPrefix_getD run 0 _ k i hi]
    simp
  · intro i hi hsk hsu
    rw [hlen] at hi ⊢
    rw [hps, execPrefix_getD run 0 _ k i hi] at hsk hsu
    by_contra hne
    have hi1 : i + 1 < k := by omega
    rcases hkpass i hi1 with h | h
    · rw [← hcs] at h
      simp at h hsk
      rw [hsk] at h
      exact absurd h (by simp)
    · rw [← hcs] at h
      simp at h hsu
      rw [hsu] at h
      exact absurd h (by simp)
  · intro hall
    rw [hlen, hcs]
    by_contra hne
    have hlt : k < (cmdsOfBlocks ((extractCodeBlocks response).filter
        (fun b => b.language == "powershell" || b.language == "ps1"))).length := by
      omega
    obtain ⟨hk0, hsk, hsu⟩ := hkhalt hlt
    have hmem : run (0 + (k - 1)) ((psCommands response).getD (k - 1) "")
        ∈ handlePowerShellCommands run response := by
      have hbound : k - 1 < (handlePowerShellCommands run response).length := by omega
      have := execPrefix_getD run 0 (psCommands response) k (k - 1) (by omega)
        ⟨"", false, "", "", "", false⟩
      rw [← hps] at this
      rw [← this, List.getD_eq_getElem _ _ hbound]
      exact List.getElem_mem hbound
    rcases hall _ hmem with h | h
    · rw [← hcs] at hsk
      simp only [List.length_nil, Nat.zero_add] at hsk
      simp only [Nat.zero_add] at h
      rw [hsk] at h
      exact absurd h (by simp)
    · rw [← hcs] at hsu
      simp only [List.length_nil, Nat.zero_add] at hsu
      simp only [Nat.zero_add] at h
      rw [hsu] at h
      exact absurd h (by simp)

/-- Witness for C5: a reply with two PowerShell blocks and an all-successful
runner processes the whole batch. -/
theorem batch_order_and_halt_witness :
    (handlePowerShellCommands (fun _ c => ⟨c, true, "", "", "", false⟩)
        "```powershell\nGet-Location\n```\nmid\n```powershell\nGet-ChildItem\n```").length
      = (psCommands
          "```powershell\nGet-Location\n```\nmid\n```powershell\nGet-ChildItem\n```").length :=
  (batch_order_and_halt (fun _ c => ⟨c, true, "", "", "", false⟩)
      "```powershell\nGet-Location\n```\nmid\n```powershell\nGet-ChildItem\n```").2.2.2
    (by decide)

lemma turnLoop_exit (env : Nat → Round) (cwd : String) (attempt : Nat) (msgs : List Msg)
    (h : MAX_AUTO_RETRY < attempt) :
    turnLoop env cwd attempt msgs = ⟨true, msgs, 0, 0, false⟩ := by
  rw [turnLoop]
  simp [h]

lemma turnLoop_commError (env : Nat → Round) (cwd : String) (attempt : Nat)
    (msgs : List Msg) (h : attempt ≤ MAX_AUTO_RETRY)
    (hai : (env attempt).ai = .commError) :
    turnLoop env cwd attempt msgs
      = ⟨false,
          match msgs.getLast? with
          | some m => if m.role = "user" then msgs.dropLast else msgs
          | none => msgs,
          1, 0, false⟩ := by
  rw [turnLoop]
  simp [Nat.not_lt.mpr h, hai]

lemma turnLoop_aborted (env : Nat → Round) (cwd : String) (attempt : Nat)
    (msgs : List Msg) (p : String) (h : attempt ≤ MAX_AUTO_RETRY)
    (hai : (env attempt).ai = .aborted p) :
    turnLoop env cwd attempt msgs
      = ⟨true,
          if p ≠ "" then msgs ++ [⟨"assistant", p ++ "\n\n[przerwano przez użytkownika]"⟩]
          else msgs,
          1, 0, false⟩ := by
  rw [turnLoop]
  simp only [Nat.not_lt.mpr h, dite_false, hai]

lemma turnLoop_empty_response (env : Nat → Round) (cwd : String) (attempt : Nat)
    (msgs : List Msg) (h : attempt ≤ MAX_AUTO_RETRY)
    (hai : (env attempt).ai = .completed "") :
    turnLoop env cwd attempt msgs
      = { turnLoop env cwd (attempt + 1) msgs with
          trips := (turnLoop env cwd (attempt + 1) msgs).trips + 1 } := by
  rw [turnLoop]
  simp [Nat.not_lt.mpr h, hai]

lemma turnLoop_completed_ok (env : Nat → Round) (cwd : String) (attempt : Nat)
    (msgs : List Msg) (resp : String) (h : attempt ≤ MAX_AUTO_RETRY)
    (hai : (env attempt).ai = .completed resp) (hresp : resp ≠ "")
    (herr : (env attempt).cmdResults.any (fun c => !c.skipped && !c.success) = false) :
    turnLoop env cwd attempt msgs
      = ⟨true, msgs ++ [⟨"assistant", resp⟩], 1, 0, false⟩ := by
  rw [turnLoop]
  simp [Nat.not_lt.mpr h, hai, hresp, herr]

lemma turnLoop_completed_retry (env : Nat → Round) (cwd : String) (attempt : Nat)
    (msgs : List Msg) (resp : String) (h : attempt < MAX_AUTO_RETRY)
    (hai : (env attempt).ai = .completed resp) (hresp : resp ≠ "")
    (herr : (env attempt).cmdResults.any (fun c => !c.skipped && !c.success) = true) :
    turnLoop env cwd attempt msgs
      = { turnLoop env cwd (attempt + 1)
            (msgs ++ [⟨"assistant", resp⟩]
              ++ [⟨"user", (formatResultsForFeedback cwd (env attempt).cmdResults).getD ""⟩])
          with
          trips := (turnLoop env cwd (attempt + 1)
            (msgs ++ [⟨"assistant", resp⟩]
              ++ [⟨"user", (formatResultsForFeedback cwd
                    (env attempt).cmdResults).getD ""⟩])).trips + 1
          retries := (turnLoop env cwd (attempt + 1)
            (msgs ++ [⟨"assistant", resp⟩]
              ++ [⟨"user", (formatResultsForFeedback cwd
                    (env attempt).cmdResults).getD ""⟩])).retries + 1 } := by
  rw [turnLoop]
  simp [Nat.not_lt.mpr (Nat.le_of_lt h), hai, hresp, herr, h]

lemma turnLoop_completed_limit (env : Nat → Round) (cwd : String) (attempt : Nat)
    (msgs : List Msg) (resp : String) (h1 : attempt ≤ MAX_AUTO_RETRY)
    (h2 : ¬ attempt < MAX_AUTO_RETRY)
    (hai : (env attempt).ai = .completed resp) (hresp : resp ≠ "")
    (herr : (env attempt).cmdResults.any (fun c => !c.skipped && !c.success) = true) :
    turnLoop env cwd attempt msgs
      = ⟨true, msgs ++ [⟨"assistant", resp⟩], 1, 0, true⟩ := by
  rw [turnLoop]
  simp [Nat.not_lt.mpr h1, hai, hresp, herr, h2]

lemma turnLoop_retries_le (env : Nat → Round) (cwd : String) :
    ∀ n attempt msgs, MAX_AUTO_RETRY + 1 - attempt ≤ n →
      (turnLoop env cwd attempt msgs).retries ≤ MAX_AUTO_RETRY - attempt := by
  intro n
  induction n with
  | zero =>
      intro attempt msgs h
      have hgt : MAX_AUTO_RETRY < attempt := by omega
      rw [turnLoop_exit env cwd attempt msgs hgt]
      simp
  | succ n ih =>
      intro attempt msgs h
      by_cases hA : MAX_AUTO_RETRY < attempt
      · rw [turnLoop_exit env cwd attempt msgs hA]
        simp
      · have hA' : attempt ≤ MAX_AUTO_RETRY := Nat.not_lt.mp hA
        cases hai : (env attempt).ai with
        | commError =>
            rw [turnLoop_commError env cwd attempt msgs hA' hai]
            simp
        | aborted p =>
            rw [turnLoop_aborted env cwd attempt msgs p hA' hai]
            simp
        | completed resp =>
            by_cases hresp : resp = ""
            · subst hresp
              rw [turnLoop_empty_response env cwd attempt msgs hA' hai]
              exact le_trans (ih (attempt + 1) msgs (by omega)) (by omega)
            · cases herr : (env attempt).cmdResults.any
                  (fun c => !c.skipped && !c.success) with
              | false =>
                  rw [turnLoop_completed_ok env cwd attempt msgs resp hA' hai hresp herr]
                  simp
              | true =>
                  by_cases hlt : attempt < MAX_AUTO_RETRY
                  · rw [turnLoop_completed_retry env cwd attempt msgs resp hlt hai
                      hresp herr]
                    have hrec := ih (attempt + 1)
                      (msgs ++ [⟨"assistant", resp⟩]
                        ++ [⟨"user", (formatResultsForFeedback cwd
                              (env attempt).cmdResults).getD ""⟩]) (by omega)
                    show (turnLoop env cwd (attempt + 1) _).retries + 1
                        ≤ MAX_AUTO_RETRY - attempt
                    omega
                  · rw [turnLoop_completed_limit env cwd attempt msgs resp hA' hlt hai
                      hresp herr]
                    simp

/-- C2: automatic repair is bounded: the number of repair attempts
(`retryCount`) never exceeds the ceiling 3, and for a turn in which every
round trip produces a nonempty reply whose command batch contains an
executed failure, the turn ends with `ok = true` and the manual-intervention
notice after exactly 3 repair attempts (no fourth repair attempt) and
`MAX_AUTO_RETRY + 1 = 4` round trips in total. -/
theorem retry_ceiling :
    (∀ (env : Nat → Round) (cwd : String) (msgs : List Msg),
        (processAITurn env cwd msgs).retries ≤ MAX_AUTO_RETRY)
      ∧ (∀ (env : Nat → Round) (cwd : String) (msgs : List Msg),
          (∀ n, n ≤ MAX_AUTO_RETRY → ∃ resp, (env n).ai = .completed resp ∧ resp ≠ ""
            ∧ (env n).cmdResults.any (fun c => !c.skipped && !c.success) = true) →
          (processAITurn env cwd msgs).ok = true
            ∧ (processAITurn env cwd msgs).retries = MAX_AUTO_RETRY
            ∧ (processAITurn env cwd msgs).trips = MAX_AUTO_RETRY + 1
            ∧ (processAITurn env cwd msgs).limitNotice = true) := by
  constructor
  · intro env cwd msgs
    simpa using turnLoop_retries_le env cwd (MAX_AUTO_RETRY + 1) 0 msgs (by omega)
  · intro env cwd msgs hfail
    have e3 : ∀ ms, (turnLoop env cwd 3 ms).ok = true
        ∧ (turnLoop env cwd 3 ms).retries = 0
        ∧ (turnLoop env cwd 3 ms).trips = 1
        ∧ (turnLoop env cwd 3 ms).limitNotice = true := by
      intro ms
      obtain ⟨r, hai, hne, herr⟩ := hfail 3 (by unfold MAX_AUTO_RETRY; omega)
      rw [turnLoop_completed_limit env cwd 3 ms r (by unfold MAX_AUTO_RETRY; omega)
        (by unfold MAX_AUTO_RETRY; omega) hai hne herr]
      exact ⟨rfl, rfl, rfl, rfl⟩
    have e2 : ∀ ms, (turnLoop env cwd 2 ms).ok = true
        ∧ (turnLoop env cwd 2 ms).retries = 1
        ∧ (turnLoop env cwd 2 ms).trips = 2
        ∧ (turnLoop env cwd 2 ms).limitNotice = true := by
      intro ms
      obtain ⟨r, hai, hne, herr⟩ := hfail 2 (by unfold MAX_AUTO_RETRY; omega)
      rw [turnLoop_completed_retry env cwd 2 ms r (by unfold MAX_AUTO_RETRY; omega)
        hai hne herr]
      obtain ⟨o3, r3, t3, l3⟩ := e3 _
      exact ⟨o3, by rw [r3], by rw [t3], l3⟩
    have e1 : ∀ ms, (turnLoop env cwd 1 ms).ok = true
        ∧ (turnLoop env cwd 1 ms).retries = 2
        ∧ (turnLoop env cwd 1 ms).trips = 3
        ∧ (turnLoop env cwd 1 ms).limitNotice = true := by
      intro ms
      obtain ⟨r, hai, hne, herr⟩ := hfail 1 (by unfold MAX_AUTO_RETRY; omega)
      rw [turnLoop_completed_retry env cwd 1 ms r (by unfold MAX_AUTO_RETRY; omega)
        hai hne herr]
      obtain ⟨o2, r2, t2, l2⟩ := e2 _
      exact ⟨o2, by rw [r2], by rw [t2], l2⟩
    have e0 : ∀ ms, (turnLoop env cwd 0 ms).ok = true
        ∧ (turnLoop env cwd 0 ms).retries = 3
        ∧ (turnLoop env cwd 0 ms).trips = 4
        ∧ (turnLoop env cwd 0 ms).limitNotice = true := by
      intro ms
      obtain ⟨r, hai, hne, herr⟩ := hfail 0 (by unfold MAX_AUTO_RETRY; omega)
      rw [turnLoop_completed_retry env cwd 0 ms r (by unfold MAX_AUTO_RETRY; omega)
        hai hne herr]
      obtain ⟨o1, r1, t1, l1⟩ := e1 _
      exact ⟨o1, by rw [r1], by rw [t1], l1⟩
    obtain ⟨o0, r0, t0, l0⟩ := e0 msgs
    exact ⟨o0, by rw [processAITurn, r0, MAX_AUTO_RETRY],
      by rw [processAITurn, t0, MAX_AUTO_RETRY], l0⟩

/-- Witness for C2: an environment whose every round trip replies with one
failing executed command exhausts exactly the three repair attempts. -/
theorem retry_ceiling_witness :
    (processAITurn (fun _ => ⟨.completed "retry", [⟨"X", false, "", "", "boom", false⟩]⟩)
        "C:" [⟨"user", "task"⟩]).ok = true
      ∧ (processAITurn (fun _ => ⟨.completed "retry",
            [⟨"X", false, "", "", "boom", false⟩]⟩) "C:" [⟨"user", "task"⟩]).retries
          = MAX_AUTO_RETRY
      ∧ (processAITurn (fun _ => ⟨.completed "retry",
            [⟨"X", false, "", "", "boom", false⟩]⟩) "C:" [⟨"user", "task"⟩]).trips
          = MAX_AUTO_RETRY + 1
      ∧ (processAITurn (fun _ => ⟨.completed "retry",
            [⟨"X", false, "", "", "boom", false⟩]⟩) "C:" [⟨"user", "task"⟩]).limitNotice
          = true :=
  retry_ceiling.2 (fun _ => ⟨.completed "retry", [⟨"X", false, "", "", "boom", false⟩]⟩)
    "C:" [⟨"user", "task"⟩] (fun n _ => ⟨"retry", rfl, by decide, rfl⟩)

/-- C1 counterexample: after a round trip whose batch executed one command
and it succeeded, the turn performs no further round trip and appends no
feedback message — it ends immediately with only the assistant reply
appended (there is no continuation loop in `processAITurn`). -/
theorem no_continuation_cex :
    (processAITurn (fun _ => ⟨.completed "ok", [⟨"Get-Location", true, "", "", "", false⟩]⟩)
        "C:" [⟨"user", "task"⟩]).trips = 1
      ∧ (processAITurn (fun _ => ⟨.completed "ok",
            [⟨"Get-Location", true, "", "", "", false⟩]⟩) "C:" [⟨"user", "task"⟩]).msgs
          = [⟨"user", "task"⟩, ⟨"assistant", "ok"⟩] := by
  rw [processAITurn, turnLoop_completed_ok _ _ 0 _ "ok" (by unfold MAX_AUTO_RETRY; omega)
    rfl (by decide) (by decide)]
  exact ⟨rfl, rfl⟩

/-- C1 amended: after a command batch in which at least one command was
executed and every executed command succeeded, the turn ends immediately
with `ok = true`, appending only the assistant reply: no feedback message is
appended, no repair attempt is counted, and no further round trip is
performed (the controller has no continuation counter; only failing batches
cause additional round trips, bounded by the retry ceiling). -/
theorem success_ends_turn (env : Nat → Round) (cwd : String) (attempt : Nat)
    (msgs : List Msg) (resp : String) (hA : attempt ≤ MAX_AUTO_RETRY)
    (hai : (env attempt).ai = .completed resp) (hresp : resp ≠ "")
    (hexec : ∃ c ∈ (env attempt).cmdResults, c.skipped = false)
    (hok : ∀ c ∈ (env attempt).cmdResults, c.skipped = false → c.success = true) :
    turnLoop env cwd attempt msgs = ⟨true, msgs ++ [⟨"assistant", resp⟩], 1, 0, false⟩ := by
  have herr : (env attempt).cmdResults.any (fun c => !c.skipped && !c.success) = false := by
    rw [List.any_eq_false]
    intro c hc
    have := hok c hc
    cases hsk : c.skipped <;> simp_all
  exact turnLoop_completed_ok env cwd attempt msgs resp hA hai hresp herr

/-- Witness for the amended C1 at a concrete environment with one executed
successful command and one skipped command. -/
theorem success_ends_turn_witness :
    turnLoop (fun _ => ⟨.completed "done",
        [⟨"Get-ChildItem", true, "out", "", "", false⟩, ⟨"rm x", false, "", "", "", true⟩]⟩)
      "C:" 0 [⟨"user", "zad"⟩]
      = ⟨true, [⟨"user", "zad"⟩] ++ [⟨"assistant", "done"⟩], 1, 0, false⟩ :=
  success_ends_turn (fun _ => ⟨.completed "done",
      [⟨"Get-ChildItem", true, "out", "", "", false⟩, ⟨"rm x", false, "", "", "", true⟩]⟩)
    "C:" 0 [⟨"user", "zad"⟩] "done" (by unfold MAX_AUTO_RETRY; omega) rfl (by decide)
    ⟨⟨"Get-ChildItem", true, "out", "", "", false⟩, by decide⟩
    (by decide)

/-- C8: when the inference request fails with a communication error, the
turn ends with `ok = false`, exactly the just-appended trailing user message
is removed from the conversation, and no assistant message is appended for
that round trip. -/
theorem comm_error_rollback (env : Nat → Round) (cwd : String) (attempt : Nat)
    (msgs : List Msg) (m : Msg) (hA : attempt ≤ MAX_AUTO_RETRY)
    (hai : (env attempt).ai = .commError)
    (hlast : msgs.getLast? = some m) (hrole : m.role = "user") :
    turnLoop env cwd attempt msgs = ⟨false, msgs.dropLast, 1, 0, false⟩ := by
  rw [turnLoop_commError env cwd attempt msgs hA hai, hlast]
  simp [hrole]

/-- Witness for C8: a communication error on the first round trip rolls the
pending prompt back. -/
theorem comm_error_rollback_witness :
    turnLoop (fun _ => ⟨.commError, []⟩) "C:" 0 [⟨"user", "pytanie"⟩]
      = ⟨false, [], 1, 0, false⟩ :=
  comm_error_rollback (fun _ => ⟨.commError, []⟩) "C:" 0 [⟨"user", "pytanie"⟩]
    ⟨"user", "pytanie"⟩ (by unfold MAX_AUTO_RETRY; omega) rfl rfl rfl

lemma processSlice_length (L idx : Nat) (l : List Msg) :
    (processSlice L idx l).length = l.length := by
  induction l generalizing idx with
  | nil => rfl
  | cons m rest ih => simp [processSlice, ih]

lemma processSlice_getD (L : Nat) (l : List Msg) (idx j : Nat) (hj : j < l.length) :
    (processSlice L idx l).getD j defaultMsg
      = (if (l.getD j defaultMsg).role = "user" ∧ ¬ (L - 4 ≤ idx + j)
            ∧ jsIncludes (l.getD j defaultMsg).content FEEDBACK_MARKER
         then { l.getD j defaultMsg with
                content := compressFeedbackMessage (l.getD j defaultMsg).content }
         else l.getD j defaultMsg) := by
  induction l generalizing idx j with
  | nil => simp at hj
  | cons m rest ih =>
      cases j with
      | zero =>
          simp [processSlice]
      | succ j2 =>
          have hj2 : j2 < rest.length := by simpa using hj
          have := ih (idx + 1) j2 hj2
          have harith : idx + 1 + j2 = idx + (j2 + 1) := by omega
          rw [harith] at this
          simpa [processSlice, List.getD_cons_succ] using this

/-- C4 counterexample: for a one-message history and bound `N = 2`
(`history.length ≤ N`) the window has `history.length + 1 = 2` entries, not
`N + 1 = 3` as the claim states. -/
theorem window_size_cex :
    ([(⟨"user", "a"⟩ : Msg)].length ≤ 2)
      ∧ (buildMessageWindow [⟨"user", "a"⟩] "sys" (some 2)).length = 2
      ∧ (2 : Nat) ≠ 2 + 1 := by
  refine ⟨by decide, ?_, by decide⟩
  decide

lemma buildMessageWindow_eq (msgs : List Msg) (sp : String) (N : Nat) :
    buildMessageWindow msgs sp (some N)
      = windowHead msgs sp N
        ++ processSlice msgs.length (msgs.length - (jsSliceLast msgs N).length)
            (jsSliceLast msgs N) := rfl

/-- C4 amended: the first element of the built window is always the
system/anchor message; if `history.length <= N` the window is the anchor
followed by the processed history — exactly `history.length + 1` entries,
with no original-task copy; and if the first user message's index falls
outside the retained last-`N` slice (`N >= 1`), the window is the anchor,
then exactly one marker-prefixed copy of that message, then the processed
last-`N` slice (whose length `N` places it entirely after the first user
message's position). -/
theorem window_structure :
    (∀ (msgs : List Msg) (sp : String) (N : Nat),
        (buildMessageWindow msgs sp (some N)).head? = some ⟨"system", sp⟩)
      ∧ (∀ (msgs : List Msg) (sp : String) (N : Nat), msgs.length ≤ N →
          buildMessageWindow msgs sp (some N)
              = ⟨"system", sp⟩ :: processSlice msgs.length 0 msgs
            ∧ (buildMessageWindow msgs sp (some N)).length = msgs.length + 1)
      ∧ (∀ (msgs : List Msg) (sp : String) (N i : Nat), 1 ≤ N →
          firstUserIdx msgs = some i → i < msgs.length - N →
          buildMessageWindow msgs sp (some N)
              = ⟨"system", sp⟩
                :: ⟨"user", ORIGINAL_TASK_PREFIX ++ (msgs.getD i defaultMsg).content⟩
                :: processSlice msgs.length (msgs.length - N) (jsSliceLast msgs N)
            ∧ (jsSliceLast msgs N).length = N) := by
  refine ⟨?_, ?_, ?_⟩
  · intro msgs sp N
    rw [buildMessageWindow_eq]
    unfold windowHead
    cases hfu : firstUserIdx msgs with
    | none => simp
    | some i => by_cases hc : msgs.length - N ≤ i <;> simp [hc]
  · intro msgs sp N hle
    have hslice : jsSliceLast msgs N = msgs := by
      unfold jsSliceLast
      split
      · rfl
      · have h0 : msgs.length - N = 0 := by omega
        rw [h0, List.drop_zero]
    have hwh : windowHead msgs sp N = [⟨"system", sp⟩] := by
      unfold windowHead
      cases hfu : firstUserIdx msgs with
      | none => rfl
      | some i =>
          have h0 : msgs.length - N = 0 := by omega
          simp [h0]
    have heq : buildMessageWindow msgs sp (some N)
        = ⟨"system", sp⟩ :: processSlice msgs.length 0 msgs := by
      rw [buildMessageWindow_eq, hslice, hwh, Nat.sub_self]
      rfl
    refine ⟨heq, ?_⟩
    rw [heq]
    simp [processSlice_length]
  · intro msgs sp N i hN hfu hout
    have hNne : N ≠ 0 := by omega
    have hlen : (jsSliceLast msgs N).length = N := by
      unfold jsSliceLast
      simp only [hNne, if_false, List.length_drop]
      omega
    have hwh : windowHead msgs sp N
        = [⟨"system", sp⟩,
           ⟨"user", ORIGINAL_TASK_PREFIX ++ (msgs.getD i defaultMsg).content⟩] := by
      unfold windowHead
      rw [hfu]
      have hc : ¬ msgs.length - N ≤ i := by omega
      simp [hc]
    refine ⟨?_, hlen⟩
    rw [buildMessageWindow_eq, hwh, hlen]
    rfl

/-- Witness for the amended C4: a five-message history with bound `N = 2`
whose first user message has aged out of the slice. -/
theorem window_structure_witness :
    buildMessageWindow
        [⟨"user", "zadanie"⟩, ⟨"assistant", "a1"⟩, ⟨"user", "u2"⟩,
         ⟨"assistant", "a2"⟩, ⟨"user", "u3"⟩] "sys" (some 2)
      = ⟨"system", "sys"⟩
        :: ⟨"user", ORIGINAL_TASK_PREFIX
              ++ (([⟨"user", "zadanie"⟩, ⟨"assistant", "a1"⟩, ⟨"user", "u2"⟩,
                    ⟨"assistant", "a2"⟩, ⟨"user", "u3"⟩] : List Msg).getD 0
                  defaultMsg).content⟩
        :: processSlice
            ([⟨"user", "zadanie"⟩, ⟨"assistant", "a1"⟩, ⟨"user", "u2"⟩,
              ⟨"assistant", "a2"⟩, ⟨"user", "u3"⟩] : List Msg).length
            (([⟨"user", "zadanie"⟩, ⟨"assistant", "a1"⟩, ⟨"user", "u2"⟩,
               ⟨"assistant", "a2"⟩, ⟨"user", "u3"⟩] : List Msg).length - 2)
            (jsSliceLast
              [⟨"user", "zadanie"⟩, ⟨"assistant", "a1"⟩, ⟨"user", "u2"⟩,
               ⟨"assistant", "a2"⟩, ⟨"user", "u3"⟩] 2) :=
  (window_structure.2.2
    [⟨"user", "zadanie"⟩, ⟨"assistant", "a1"⟩, ⟨"user", "u2"⟩,
     ⟨"assistant", "a2"⟩, ⟨"user", "u3"⟩] "sys" 2 0 (by decide) (by decide)
    (by decide)).1

/-- C7: a tool-feedback message of the retained slice (a user message whose
content carries the command-results marker) that is not among the 4 most
recent messages of the history and whose line count exceeds the threshold 10
appears in the built window with its content replaced by its first 3 lines,
one line stating the number of omitted lines, and its last 5 lines verbatim;
a message whose line count is at or below the threshold is passed through
unchanged. -/
theorem feedback_compression :
    (∀ (msgs : List Msg) (sp : String) (N j : Nat),
        j < (jsSliceLast msgs N).length →
        ((jsSliceLast msgs N).getD j defaultMsg).role = "user" →
        jsIncludes ((jsSliceLast msgs N).getD j defaultMsg).content FEEDBACK_MARKER →
        msgs.length - (jsSliceLast msgs N).length + j < msgs.length - 4 →
        10 < (jsSplitNl ((jsSliceLast msgs N).getD j defaultMsg).content).length →
        (buildMessageWindow msgs sp (some N)).getD ((windowHead msgs sp N).length + j)
            defaultMsg
          = ⟨"user",
             jsJoinNl
               ((jsSplitNl ((jsSliceLast msgs N).getD j defaultMsg).content).take 3
                 ++ ["... (skrócono "
                      ++ toString
                          ((jsSplitNl ((jsSliceLast msgs N).getD j
                              defaultMsg).content).length - 8)
                      ++ " linii) ..."]
                 ++ (jsSplitNl ((jsSliceLast msgs N).getD j defaultMsg).content).drop
                     ((jsSplitNl ((jsSliceLast msgs N).getD j
                         defaultMsg).content).length - 5))⟩)
      ∧ (∀ (msgs : List Msg) (sp : String) (N j : Nat),
          j < (jsSliceLast msgs N).length →
          (jsSplitNl ((jsSliceLast msgs N).getD j defaultMsg).content).length ≤ 10 →
          (buildMessageWindow msgs sp (some N)).getD ((windowHead msgs sp N).length + j)
              defaultMsg
            = (jsSliceLast msgs N).getD j defaultMsg) := by
  constructor
  · intro msgs sp N j hj hrole hmark hold hlines
    rw [buildMessageWindow_eq,
      List.getD_append_right _ _ _ _ (Nat.le_add_right _ j),
      Nat.add_sub_cancel_left, processSlice_getD _ _ _ j hj]
    have hcond : ((jsSliceLast msgs N).getD j defaultMsg).role = "user"
        ∧ ¬ (msgs.length - 4 ≤ msgs.length - (jsSliceLast msgs N).length + j)
        ∧ jsIncludes ((jsSliceLast msgs N).getD j defaultMsg).content FEEDBACK_MARKER :=
      ⟨hrole, by omega, hmark⟩
    rw [if_pos hcond]
    have hcompress : compressFeedbackMessage
        ((jsSliceLast msgs N).getD j defaultMsg).content
        = jsJoinNl
            ((jsSplitNl ((jsSliceLast msgs N).getD j defaultMsg).content).take 3
              ++ ["... (skrócono "
                    ++ toString ((jsSplitNl ((jsSliceLast msgs N).getD j
                        defaultMsg).content).length - 8)
                    ++ " linii) ..."]
              ++ (jsSplitNl ((jsSliceLast msgs N).getD j defaultMsg).content).drop
                  ((jsSplitNl ((jsSliceLast msgs N).getD j
                      defaultMsg).content).length - 5)) := by
      unfold compressFeedbackMessage
      rw [if_neg (by simpa using hmark), if_neg (by omega)]
      have h5 : jsSliceLast (jsSplitNl ((jsSliceLast msgs N).getD j
          defaultMsg).content) 5
          = (jsSplitNl ((jsSliceLast msgs N).getD j defaultMsg).content).drop
              ((jsSplitNl ((jsSliceLast msgs N).getD j defaultMsg).content).length
                - 5) := by
        unfold jsSliceLast
        simp
      simp only [h5, List.length_take, List.length_drop]
      have harith : (jsSplitNl ((jsSliceLast msgs N).getD j defaultMsg).content).length
            - min 3 (jsSplitNl ((jsSliceLast msgs N).getD j
                defaultMsg).content).length
            - ((jsSplitNl ((jsSliceLast msgs N).getD j defaultMsg).content).length
              - ((jsSplitNl ((jsSliceLast msgs N).getD j defaultMsg).content).length
                - 5))
          = (jsSplitNl ((jsSliceLast msgs N).getD j defaultMsg).content).length - 8 := by
        omega
      rw [harith]
    rw [hcompress]
    have : ({ (jsSliceLast msgs N).getD j defaultMsg with
        content := jsJoinNl
          ((jsSplitNl ((jsSliceLast msgs N).getD j defaultMsg).content).take 3
            ++ ["... (skrócono "
                  ++ toString ((jsSplitNl ((jsSliceLast msgs N).getD j
                      defaultMsg).content).length - 8)
                  ++ " linii) ..."]
            ++ (jsSplitNl ((jsSliceLast msgs N).getD j defaultMsg).content).drop
                ((jsSplitNl ((jsSliceLast msgs N).getD j
                    defaultMsg).content).length - 5)) } : Msg).role
        = "user" := hrole
    cases hmsg : (jsSliceLast msgs N).getD j defaultMsg with
    | mk r c =>
        rw [hmsg] at hrole
        simp_all
  · intro msgs sp N j hj hlines
    rw [buildMessageWindow_eq,
      List.getD_append_right _ _ _ _ (Nat.le_add_right _ j),
      Nat.add_sub_cancel_left, processSlice_getD _ _ _ j hj]
    split
    · next hcond =>
        have hcomp : compressFeedbackMessage
            ((jsSliceLast msgs N).getD j defaultMsg).content
            = ((jsSliceLast msgs N).getD j defaultMsg).content := by
          unfold compressFeedbackMessage
          rw [if_neg (by simpa using hcond.2.2)]
          rw [if_pos (by omega)]
        rw [hcomp]
    · rfl

/-- Witness for C7: an 11-line feedback message at absolute index 0 of a
5-message history (outside the 4 most recent) is compressed to its first 3
lines, the omitted-count line, and its last 5 lines. -/
theorem feedback_compression_witness :
    (buildMessageWindow
        [⟨"user",
          "[WYNIKI WYKONANIA KOMEND]\nKatalog roboczy: C:\n\nl4\nl5\nl6\nl7\nl8\nl9\nl10\nl11"⟩,
         ⟨"assistant", "a1"⟩, ⟨"user", "u1"⟩, ⟨"assistant", "a2"⟩, ⟨"user", "u2"⟩]
        "sys" (some 20)).getD
        ((windowHead
          [⟨"user",
            "[WYNIKI WYKONANIA KOMEND]\nKatalog roboczy: C:\n\nl4\nl5\nl6\nl7\nl8\nl9\nl10\nl11"⟩,
           ⟨"assistant", "a1"⟩, ⟨"user", "u1"⟩, ⟨"assistant", "a2"⟩, ⟨"user", "u2"⟩]
          "sys" 20).length + 0) defaultMsg
      = ⟨"user",
         "[WYNIKI WYKONANIA KOMEND]\nKatalog roboczy: C:\n\n... (skrócono 3 linii) ...\nl7\nl8\nl9\nl10\nl11"⟩ :=
  feedback_compression.1
    [⟨"user",
      "[WYNIKI WYKONANIA KOMEND]\nKatalog roboczy: C:\n\nl4\nl5\nl6\nl7\nl8\nl9\nl10\nl11"⟩,
     ⟨"assistant", "a1"⟩, ⟨"user", "u1"⟩, ⟨"assistant", "a2"⟩, ⟨"user", "u2"⟩]
    "sys" 20 0 (by decide) (by decide) (by decide) (by decide) (by decide)

lemma heapGet_append_left (h1 h2 : List Msg) (a : Nat) (ha : a < h1.length) :
    heapGet (h1 ++ h2) a = heapGet h1 a := by
  unfold heapGet
  rw [List.getD_eq_getElem?_getD, List.getElem?_append_left ha,
    ← List.getD_eq_getElem?_getD]

lemma heapGet_stable (h1 h2 : List Msg) (a : Nat) (hpre : h1 <+: h2)
    (ha : a < h1.length) : heapGet h2 a = heapGet h1 a := by
  obtain ⟨t, rfl⟩ := hpre
  exact heapGet_append_left h1 t a ha

lemma heapGet_append_self (h1 : List Msg) (m : Msg) :
    heapGet (h1 ++ [m]) h1.length = m := by
  unfold heapGet
  rw [List.getD_eq_getElem?_getD, List.getElem?_append_right (le_refl _)]
  simp

lemma processSliceRef_extends (history : List Nat) (as : List Nat) (heap : List Msg) :
    heap <+: (processSliceRef history as heap).1 := by
  induction as generalizing heap with
  | nil => exact List.prefix_refl _
  | cons a rest ih =>
      rw [processSliceRef]
      split
      · exact (List.prefix_append heap _).trans (ih _)
      · exact ih heap

lemma jsSliceLast_indexOf (history : List Nat) (hnodup : history.Nodup) (max : Nat) :
    ∀ k, k < (jsSliceLast history max).length →
      history.indexOf ((jsSliceLast history max).getD k 0)
        = history.length - (jsSliceLast history max).length + k := by
  intro k hk
  by_cases h0 : max = 0
  · unfold jsSliceLast at hk ⊢
    simp only [h0, if_true, eq_self_iff_true] at hk ⊢
    rw [List.getD_eq_getElem _ _ hk, List.indexOf_getElem hnodup k hk]
    omega
  · unfold jsSliceLast at hk ⊢
    simp only [h0, if_false] at hk ⊢
    have hgd : (history.drop (history.length - max)).getD k 0
        = history.getD (history.length - max + k) 0 := by
      rw [List.getD_eq_getElem?_getD, List.getElem?_drop, ← List.getD_eq_getElem?_getD]
    rw [List.length_drop] at hk ⊢
    have hklt : history.length - max + k < history.length := by omega
    rw [hgd, List.getD_eq_getElem _ _ hklt, List.indexOf_getElem hnodup _ hklt]
    omega

lemma jsSliceLast_subset (history : List Nat) (max : Nat) :
    ∀ a ∈ jsSliceLast history max, a ∈ history := by
  intro a ha
  unfold jsSliceLast at ha
  split at ha
  · exact ha
  · exact List.mem_of_mem_drop ha

lemma processSliceRef_spec (store : List Msg) (history : List Nat) :
    ∀ (as : List Nat) (heap : List Msg) (base : Nat),
      store <+: heap →
      (∀ a ∈ as, a < store.length) →
      (∀ k, k < as.length → history.indexOf (as.getD k 0) = base + k) →
      ((processSliceRef history as heap).2).map
          (heapGet (processSliceRef history as heap).1)
        = processSlice history.length base (as.map (heapGet store)) := by
  intro as
  induction as with
  | nil =>
      intro heap base _ _ _
      rfl
  | cons a rest ih =>
      intro heap base hpre hval hpos
      have ha : a < store.length := hval a (List.mem_cons_self a rest)
      have hmsg : heapGet heap a = heapGet store a :=
        heapGet_stable store heap a hpre ha
      have hidx : history.indexOf a = base := by simpa using hpos 0 (by simp)
      have hpos' : ∀ k, k < rest.length →
          history.indexOf (rest.getD k 0) = base + 1 + k := by
        intro k hk
        have h2 := hpos (k + 1) (by simpa using Nat.succ_lt_succ hk)
        rw [List.getD_cons_succ] at h2
        rw [show base + 1 + k = base + (k + 1) from by omega]
        exact h2
      have hvr : ∀ b ∈ rest, b < store.length := fun b hb =>
        hval b (List.mem_cons_of_mem a hb)
      rw [processSliceRef, List.map_cons, processSlice]
      split
      · next hcond =>
          have hpre2 : store <+: heap
              ++ [{ heapGet heap a with
                    content := compressFeedbackMessage (heapGet heap a).content }] :=
            hpre.trans (List.prefix_append _ _)
          have htail := ih (heap
              ++ [{ heapGet heap a with
                    content := compressFeedbackMessage (heapGet heap a).content }])
            (base + 1) hpre2 hvr hpos'
          have hrefpre := processSliceRef_extends history rest (heap
              ++ [{ heapGet heap a with
                    content := compressFeedbackMessage (heapGet heap a).content }])
          have hhead : heapGet (processSliceRef history rest (heap
              ++ [{ heapGet heap a with
                    content := compressFeedbackMessage (heapGet heap a).content }])).1
                heap.length
              = { heapGet heap a with
                  content := compressFeedbackMessage (heapGet heap a).content } := by
            rw [heapGet_stable _ _ heap.length hrefpre (by simp)]
            exact heapGet_append_self heap _
          simp only [List.map_cons, hhead, htail]
          have hcond' : (heapGet store a).role = "user"
              ∧ ¬ (history.length - 4 ≤ base)
              ∧ jsIncludes (heapGet store a).content FEEDBACK_MARKER := by
            rw [← hmsg, ← hidx]
            exact hcond
          rw [if_pos hcond', hmsg]
      · next hcond =>
          have htail := ih heap (base + 1) hpre hvr hpos'
          have hrefpre := processSliceRef_extends history rest heap
          have hhead : heapGet (processSliceRef history rest heap).1 a
              = heapGet store a := by
            rw [heapGet_stable _ _ a hrefpre (lt_of_lt_of_le ha hpre.length_le)]
            exact hmsg
          simp only [List.map_cons, hhead, htail]
          have hcond' : ¬ ((heapGet store a).role = "user"
              ∧ ¬ (history.length - 4 ≤ base)
              ∧ jsIncludes (heapGet store a).content FEEDBACK_MARKER) := by
            rw [← hmsg, ← hidx]
            exact hcond
          rw [if_neg hcond']

lemma jsSliceLast_map {α β : Type} (f : α → β) (l : List α) (k : Nat) :
    jsSliceLast (l.map f) k = (jsSliceLast l k).map f := by
  unfold jsSliceLast
  rw [List.length_map]
  split
  · rfl
  · rw [List.map_drop]

lemma getD_map_heapGet (store : List Msg) (l : List Nat) (i : Nat) (h : i < l.length) :
    (l.map (heapGet store)).getD i defaultMsg = heapGet store (l.getD i 0) := by
  rw [List.getD_eq_getElem _ _ (by simpa using h), List.getD_eq_getElem _ _ h,
    List.getElem_map]

lemma firstUserIdx_map_heapGet (store : List Msg) (history : List Nat) :
    firstUserIdx (history.map (heapGet store))
      = history.findIdx? (fun a => (heapGet store a).role = "user") := by
  unfold firstUserIdx
  rw [List.findIdx?_map]
  rfl

lemma windowHeadRef_extends (store : List Msg) (history : List Nat) (sp : String)
    (max : Nat) : store <+: (windowHeadRef store history sp max).1 := by
  unfold windowHeadRef
  cases hfu : history.findIdx? (fun a => (heapGet store a).role = "user") with
  | none => exact List.prefix_append _ _
  | some i =>
      by_cases hc : history.length - max ≤ i
      · simp only [hc, if_true]
        exact List.prefix_append _ _
      · simp only [hc, if_false]
        exact (List.prefix_append _ _).trans (List.prefix_append _ _)

lemma windowHeadRef_length_le (store : List Msg) (history : List Nat) (sp : String)
    (max : Nat) : (store ++ [(⟨"system", sp⟩ : Msg)] : List Msg).length
      ≤ (windowHeadRef store history sp max).1.length := by
  unfold windowHeadRef
  cases hfu : history.findIdx? (fun a => (heapGet store a).role = "user") with
  | none => simp
  | some i =>
      by_cases hc : history.length - max ≤ i
      · simp [hc]
      · simp [hc]

lemma windowHeadRef_deref (store : List Msg) (history : List Nat) (sp : String)
    (max : Nat) (H : List Msg) (hpre : (windowHeadRef store history sp max).1 <+: H)
    (hval : ∀ a ∈ history, a < store.length) :
    ((windowHeadRef store history sp max).2).map (heapGet H)
      = windowHead (history.map (heapGet store)) sp max := by
  have hsys : heapGet H store.length = ⟨"system", sp⟩ := by
    have h1pre : (store ++ [(⟨"system", sp⟩ : Msg)] : List Msg) <+: H := by
      refine List.IsPrefix.trans ?_ hpre
      unfold windowHeadRef
      cases hfu : history.findIdx? (fun a => (heapGet store a).role = "user") with
      | none => exact List.prefix_refl _
      | some i =>
          by_cases hc : history.length - max ≤ i
          · simp only [hc, if_true]
            exact List.prefix_refl _
          · simp only [hc, if_false]
            exact List.prefix_append _ _
    rw [heapGet_stable _ _ _ h1pre (by simp)]
    exact heapGet_append_self store _
  unfold windowHead
  rw [firstUserIdx_map_heapGet]
  unfold windowHeadRef at hpre ⊢
  cases hfu : history.findIdx? (fun a => (heapGet store a).role = "user") with
  | none =>
      simp only [List.map_cons, List.map_nil, hsys]
  | some i =>
      rw [hfu] at hpre
      have hi : i < history.length :=
        (List.findIdx?_eq_some_iff_findIdx_eq.mp hfu).1
      by_cases hc : history.length - max ≤ i
      · simp only [hc, if_true, List.length_map]
        simp only [List.map_cons, List.map_nil, hsys]
      · simp only [hc, if_false] at hpre ⊢
        have hiv : history.getD i 0 ∈ history := by
          rw [List.getD_eq_getElem _ _ hi]
          exact List.getElem_mem hi
        have hdup : heapGet H (store ++ [(⟨"system", sp⟩ : Msg)]).length
            = ⟨"user", ORIGINAL_TASK_PREFIX
                ++ (heapGet (store ++ [(⟨"system", sp⟩ : Msg)])
                    (history.getD i 0)).content⟩ := by
          rw [heapGet_stable _ _ _ hpre (by simp)]
          exact heapGet_append_self _ _
        have hread : heapGet (store ++ [(⟨"system", sp⟩ : Msg)]) (history.getD i 0)
            = heapGet store (history.getD i 0) :=
          heapGet_append_left _ _ _ (hval _ hiv)
        have hpure : ((history.map (heapGet store)).getD i defaultMsg)
            = heapGet store (history.getD i 0) := getD_map_heapGet store history i hi
        simp only [List.length_map, if_neg hc, List.map_append, List.map_cons,
          List.map_nil, List.singleton_append, hsys, hdup, hread, hpure]

lemma buildMessageWindow_eq_gen (msgs : List Msg) (sp : String) (maxN : Option Nat) :
    buildMessageWindow msgs sp maxN
      = windowHead msgs sp (maxN.getD MAX_HISTORY_MESSAGES)
        ++ processSlice msgs.length
            (msgs.length - (jsSliceLast msgs (maxN.getD MAX_HISTORY_MESSAGES)).length)
            (jsSliceLast msgs (maxN.getD MAX_HISTORY_MESSAGES)) := rfl

/-- C10: the object-level window builder never mutates its input — the
original conversation objects survive unchanged (the final heap extends the
input heap, and every history address still dereferences to its original
message), while the returned window dereferences exactly to the pure
`buildMessageWindow` of the conversation; the anchor, original-task copy and
compressed entries are fresh allocations, so the stored conversation keeps
its full uncompressed content. -/
theorem window_builder_no_mutation (store : List Msg) (history : List Nat)
    (sp : String) (maxN : Option Nat)
    (hval : ∀ a ∈ history, a < store.length) (hnodup : history.Nodup) :
    store <+: (buildMessageWindowRef store history sp maxN).1
      ∧ (∀ a ∈ history,
          heapGet (buildMessageWindowRef store history sp maxN).1 a = heapGet store a)
      ∧ ((buildMessageWindowRef store history sp maxN).2).map
            (heapGet (buildMessageWindowRef store history sp maxN).1)
          = buildMessageWindow (history.map (heapGet store)) sp maxN
      ∧ history.map (heapGet (buildMessageWindowRef store history sp maxN).1)
          = history.map (heapGet store) := by
  have hbm : buildMessageWindowRef store history sp maxN
      = ((processSliceRef history
            (jsSliceLast history (maxN.getD MAX_HISTORY_MESSAGES))
            (windowHeadRef store history sp (maxN.getD MAX_HISTORY_MESSAGES)).1).1,
         (windowHeadRef store history sp (maxN.getD MAX_HISTORY_MESSAGES)).2
           ++ (processSliceRef history
                (jsSliceLast history (maxN.getD MAX_HISTORY_MESSAGES))
                (windowHeadRef store history sp
                  (maxN.getD MAX_HISTORY_MESSAGES)).1).2) := rfl
  have hpre1 : store
      <+: (windowHeadRef store history sp (maxN.getD MAX_HISTORY_MESSAGES)).1 :=
    windowHeadRef_extends store history sp (maxN.getD MAX_HISTORY_MESSAGES)
  have hpre2 : (windowHeadRef store history sp (maxN.getD MAX_HISTORY_MESSAGES)).1
      <+: (processSliceRef history
            (jsSliceLast history (maxN.getD MAX_HISTORY_MESSAGES))
            (windowHeadRef store history sp (maxN.getD MAX_HISTORY_MESSAGES)).1).1 :=
    processSliceRef_extends _ _ _
  have hpreAll : store
      <+: (processSliceRef history
            (jsSliceLast history (maxN.getD MAX_HISTORY_MESSAGES))
            (windowHeadRef store history sp (maxN.getD MAX_HISTORY_MESSAGES)).1).1 :=
    hpre1.trans hpre2
  refine ⟨?_, ?_, ?_, ?_⟩
  · rw [hbm]
    exact hpreAll
  · intro a haH
    rw [hbm]
    exact heapGet_stable store _ a hpreAll (hval a haH)
  · rw [hbm]
    simp only [List.map_append]
    rw [windowHeadRef_deref store history sp (maxN.getD MAX_HISTORY_MESSAGES) _
        hpre2 hval,
      processSliceRef_spec store history
        (jsSliceLast history (maxN.getD MAX_HISTORY_MESSAGES)) _
        (history.length
          - (jsSliceLast history (maxN.getD MAX_HISTORY_MESSAGES)).length) hpre1
        (fun a ha => hval a
          (jsSliceLast_subset history (maxN.getD MAX_HISTORY_MESSAGES) a ha))
        (jsSliceLast_indexOf history hnodup (maxN.getD MAX_HISTORY_MESSAGES)),
      buildMessageWindow_eq_gen, List.length_map, jsSliceLast_map, List.length_map]
  · rw [hbm]
    exact List.map_congr_left
      (fun a haH => heapGet_stable store _ a hpreAll (hval a haH))

/-- Witness for C10 at a concrete three-message conversation with a bound
that ages the first user message out and compresses nothing. -/
theorem window_builder_no_mutation_witness :
    [(⟨"user", "q"⟩ : Msg), ⟨"assistant", "a"⟩, ⟨"user", "u"⟩]
        <+: (buildMessageWindowRef
              [⟨"user", "q"⟩, ⟨"assistant", "a"⟩, ⟨"user", "u"⟩] [0, 1, 2]
              "sys" (some 2)).1
      ∧ ((buildMessageWindowRef
            [⟨"user", "q"⟩, ⟨"assistant", "a"⟩, ⟨"user", "u"⟩] [0, 1, 2]
            "sys" (some 2)).2).map
            (heapGet (buildMessageWindowRef
              [⟨"user", "q"⟩, ⟨"assistant", "a"⟩, ⟨"user", "u"⟩] [0, 1, 2]
              "sys" (some 2)).1)
          = buildMessageWindow
              (([0, 1, 2] : List Nat).map
                (heapGet [⟨"user", "q"⟩, ⟨"assistant", "a"⟩, ⟨"user", "u"⟩]))
              "sys" (some 2) :=
  ⟨(window_builder_no_mutation
      [⟨"user", "q"⟩, ⟨"assistant", "a"⟩, ⟨"user", "u"⟩] [0, 1, 2] "sys" (some 2)
      (by decide) (by decide)).1,
   (window_builder_no_mutation
      [⟨"user", "q"⟩, ⟨"assistant", "a"⟩, ⟨"user", "u"⟩] [0, 1, 2] "sys" (some 2)
      (by decide) (by decide)).2.2.1⟩
